import Mathlib

/-!
Verification of the jigsaw tile assembly and motif-detection engine
(`src/bin/20.rs` of the repository).

Shallow embedding conventions:
* `Vec<Vec<bool>>` pixel grids become `List (List Bool)`.
* `TileRow` (a `u16` bitfield) becomes `Nat`.  All bitfields produced by the
  code have bits confined to positions 0..9 (tiles are 10 pixels wide), far
  below the `u16` range, so overflow never occurs and no modular reduction is
  needed on the modelled executions.
* `HashMap<usize, u32>` adjacency maps (keys are always 0..3) become the
  four-field structure `Adj`.
* Rust loops that are not structurally recursive are modelled with explicit
  fuel; `none` models a panic or divergence of the Rust code.  Out-of-bounds
  indexing (a Rust panic) is modelled by `List.getD` defaults; the modelled
  executions and all hypotheses used by the theorems keep every index in
  bounds, where both semantics agree.
-/

/-- The bitfield type of one tile edge (`struct TileRow(u16)` in the source). -/
abbrev TileRow := Nat

/-- `TileRow::from_vec`: build the bitfield of a pixel row; pixel `i` from the
right (iterating the reversed row) sets bit `i`. -/
def TileRow.from_vec (v : List Bool) : TileRow :=
  (v.reverse.enum).foldl (fun acc ip => if ip.2 then acc ||| (1 <<< ip.1) else acc) 0

/-- `TileRow::flip`: reverse the 10-bit binary representation,
i.e. 1010101011 becomes 1101010101. -/
def TileRow.flip (x : TileRow) : TileRow :=
  (List.range 10).foldl (fun new i => if x &&& (1 <<< i) != 0 then new ||| (1 <<< (10 - 1 - i)) else new) 0

/-- The adjacency map of a tile: `HashMap` from side index
(top = 0, right = 1, bottom = 2, left = 3) to the neighbouring tile id.
The source only ever inserts and queries keys 0..3. -/
structure Adj where
  top : Option Nat
  right : Option Nat
  bottom : Option Nat
  left : Option Nat
deriving DecidableEq, Inhabited

/-- The empty adjacency map (`HashMap::new()`). -/
def Adj.empty : Adj := ⟨none, none, none, none⟩

/-- `HashMap::get` on the adjacency map (any key outside 0..3 is absent). -/
def Adj.get (a : Adj) : Nat → Option Nat
  | 0 => a.top
  | 1 => a.right
  | 2 => a.bottom
  | 3 => a.left
  | _ => none

/-- `HashMap::insert` on the adjacency map (the source only inserts keys 0..3;
other keys are ignored by the model). -/
def Adj.insert (a : Adj) (k v : Nat) : Adj :=
  match k with
  | 0 => { a with top := some v }
  | 1 => { a with right := some v }
  | 2 => { a with bottom := some v }
  | 3 => { a with left := some v }
  | _ => a

/-- `HashMap::len` on the adjacency map. -/
def Adj.size (a : Adj) : Nat :=
  ([a.top, a.right, a.bottom, a.left].filter Option.isSome).length

/-- `struct Tile`: identifier, pixel grid, adjacency map, fixed flag. -/
structure Tile where
  id : Nat
  rows : List (List Bool)
  adjacent : Adj
  fixed : Bool
deriving DecidableEq, Inhabited

/-- `Tile::edges` (as a function of the pixel grid): the edges in
[top, right, bottom, left] order for the current orientation.
Top is read left to right, bottom left to right after a 180 degree rotation
(hence the flip), right is read bottom to top and left top to bottom;
the right/left bitfields are accumulated in one pass over the rows,
exactly as the source's single loop does. -/
def edges_rows (rows : List (List Bool)) : List TileRow :=
  [TileRow.from_vec (rows.getD 0 []),
   (rows.enum.foldl
     (fun (p : TileRow × TileRow) ir =>
       (if (ir.2.getD (rows.length - 1) false) then p.1 ||| (1 <<< (rows.length - 1 - ir.1)) else p.1,
        if (ir.2.getD 0 false) then p.2 ||| (1 <<< ir.1) else p.2))
     (0, 0)).1,
   TileRow.flip (TileRow.from_vec (rows.getD (rows.length - 1) [])),
   (rows.enum.foldl
     (fun (p : TileRow × TileRow) ir =>
       (if (ir.2.getD (rows.length - 1) false) then p.1 ||| (1 <<< (rows.length - 1 - ir.1)) else p.1,
        if (ir.2.getD 0 false) then p.2 ||| (1 <<< ir.1) else p.2))
     (0, 0)).2]

/-- `Tile::edges`. -/
def Tile.edges (t : Tile) : List TileRow := edges_rows t.rows

/-- `flip_pixels`: flip a grid of pixels about the vertical axis. -/
def flip_pixels (grid : List (List Bool)) : List (List Bool) :=
  grid.map List.reverse

/-- `rotate_pixels`: rotate a grid of pixels 90 degrees clockwise.
The source takes `len` from the first row and reads `grid[len - y][x]`. -/
def rotate_pixels (grid : List (List Bool)) : List (List Bool) :=
  let len := (grid.getD 0 []).length
  (List.range len).map (fun x => (List.range len).map (fun y => (grid.getD (len - 1 - y) []).getD x false))

/-- Pixel access with out-of-bounds default, the reading the source's
`grid[x][y]` performs on in-bounds indices. -/
def pix (grid : List (List Bool)) (x y : Nat) : Bool :=
  (grid.getD x []).getD y false

/-- The invariant of the puzzle input: a tile grid is exactly 10 by 10. -/
def Dims10 (rows : List (List Bool)) : Prop :=
  rows.length = 10 ∧ ∀ r ∈ rows, r.length = 10

instance (rows : List (List Bool)) : Decidable (Dims10 rows) := by
  unfold Dims10
  exact inferInstance

/-- A square image (the shape `part_two` asserts). -/
def SquareImage (image : List (List Bool)) : Prop :=
  ∀ row ∈ image, row.length = image.length

instance (image : List (List Bool)) : Decidable (SquareImage image) := by
  unfold SquareImage
  exact inferInstance

/-- Apply a sequence of reorientation operations to a grid
(`true` is a 90 degree clockwise rotation, `false` a mirror about the
vertical axis), in order. -/
def apply_ops : List Bool → List (List Bool) → List (List Bool)
  | [], g => g
  | b :: ops, g => apply_ops ops (if b then rotate_pixels g else flip_pixels g)

/-- The rotate-until-the-opposite-edge-matches loop of `match_puzzle`
(`while edge_match.edges()[(i + 2) % 4] != edge { edge_match.rotate(); }`).
For a square grid, four rotations return to the start, so fuel 4 is
exhaustive: `none` models divergence of the Rust loop. -/
def rotate_loop : Nat → Tile → Nat → TileRow → Option Tile
  | 0, _, _, _ => none
  | fuel + 1, t, idx, edge =>
    if (edges_rows t.rows).getD idx 0 = edge then some t
    else rotate_loop fuel { t with rows := rotate_pixels t.rows } idx edge

/-- The orientation block of `match_puzzle`: if the candidate is not fixed,
flip it when its edges do not contain the sought edge, rotate until the edge
opposite side `i` matches, and mark it fixed. -/
def orient_candidate (em : Tile) (i : Nat) (edge : TileRow) : Option Tile :=
  if em.fixed then some em
  else
    (rotate_loop 4
      (if ¬ (edges_rows em.rows).contains edge
       then { em with rows := flip_pixels em.rows } else em)
      ((i + 2) % 4) edge).map (fun t => { t with fixed := true })

/-- The search predicate of `match_puzzle`: a stack tile matches when its
edges contain the sought signature, or its flip if the tile is not fixed. -/
def seek_pred (edge : TileRow) (u : Tile) : Bool :=
  (edges_rows u.rows).contains edge ||
  ((edges_rows u.rows).contains (TileRow.flip edge) && !u.fixed)

/-- One iteration of the edge loop of `match_puzzle`: seek the first stack tile
containing the sought `edge` (or its flip, if not fixed), remove it, orient it,
record the bidirectional adjacency (`edge_match` with its updated map is the
`em2` of the source, the popped tile with its updated map is `t1`), and push
the match back onto the stack or the done pile.  `none` models the source's
panic when the piece cannot be oriented to fit. -/
def process_edge : List Tile × List Tile × Tile → Nat × TileRow →
    Option (List Tile × List Tile × Tile)
  | (stack, done, t), (i, edge) =>
    match stack.findIdx? (seek_pred edge) with
    | none => some (stack, done, t)
    | some idx =>
      (orient_candidate (stack.getD idx default) i edge).bind (fun em1 =>
        if (edges_rows em1.rows).getD ((i + 2) % 4) 0 ≠ edge then none
        else
          if (em1.adjacent.insert ((i + 2) % 4) t.id).size > 3 then
            some (stack.eraseIdx idx,
                  done ++ [{ em1 with adjacent := em1.adjacent.insert ((i + 2) % 4) t.id }],
                  { t with adjacent := t.adjacent.insert i em1.id })
          else
            some (stack.eraseIdx idx
                    ++ [{ em1 with adjacent := em1.adjacent.insert ((i + 2) % 4) t.id }],
                  done,
                  { t with adjacent := t.adjacent.insert i em1.id }))

/-- The body of the outer `while let` of `match_puzzle`: mark the popped tile
fixed and go over its edges in [top, right, bottom, left] order, each flipped
(the marked tile has the same pixel grid, so its edges are computed from the
unchanged rows). -/
def process_tile (stack done : List Tile) (t : Tile) : Option (List Tile × List Tile) :=
  (((edges_rows t.rows).map TileRow.flip).enum.foldlM process_edge
      (stack, done, { t with fixed := true })).map
    (fun q => (q.1, q.2.1 ++ [q.2.2]))

/-- The outer loop of `match_puzzle` over the processing stack (`Vec::pop`
takes the last element).  Each iteration strictly shrinks the stack, so fuel
equal to the initial stack length is exhaustive. -/
def match_puzzle_go : Nat → List Tile → List Tile → Option (List Tile)
  | 0, stack, done =>
    match stack.getLast? with
    | none => some done
    | some _ => none
  | fuel + 1, stack, done =>
    match stack.getLast? with
    | none => some done
    | some t =>
      (process_tile stack.dropLast done t).bind (fun q => match_puzzle_go fuel q.1 q.2)

/-- `match_puzzle`: find all of the tiles' neighbours, flipping and rotating
tiles as appropriate; returns the done pile. -/
def match_puzzle (tiles : List Tile) : Option (List Tile) :=
  match_puzzle_go tiles.length tiles []

/-- `strip_border`: drop the first and last row and the first and last pixel
of each remaining row. -/
def strip_border (grid : List (List Bool)) : List (List Bool) :=
  ((grid.drop 1).dropLast).map (fun row => (row.drop 1).dropLast)

/-- `id_map` lookup of `arrange_tiles` (`HashMap` from id to tile; ids are
unique in every modelled execution, so first-match lookup is faithful). -/
def find_by_id (tiles : List Tile) (id : Nat) : Option Tile :=
  tiles.find? (fun u => u.id == id)

/-- The inner loop of `arrange_tiles`: follow the right (side 1) neighbour
links, pushing tiles, until a tile has no right neighbour.  `none` models a
missing id (panicking `unwrap`) or divergence. -/
def follow_right (tiles : List Tile) : Nat → Tile → Option (List Tile)
  | 0, _ => none
  | fuel + 1, t =>
    match t.adjacent.get 1 with
    | none => some [t]
    | some id =>
      match find_by_id tiles id with
      | none => none
      | some t2 => (follow_right tiles fuel t2).map (fun row => t :: row)

/-- The outer loop of `arrange_tiles`: build a row from the current row
corner, then follow the bottom (side 2) link of that corner to the next row. -/
def follow_down (tiles : List Tile) : Nat → Tile → Option (List (List Tile))
  | 0, _ => none
  | fuel + 1, corner =>
    (follow_right tiles tiles.length corner).bind (fun row =>
      match corner.adjacent.get 2 with
      | none => some [row]
      | some id =>
        match find_by_id tiles id with
        | none => none
        | some c2 => (follow_down tiles fuel c2).map (fun grid => row :: grid))

/-- `arrange_tiles`: find the top left corner (exactly 2 neighbours, none on
top nor on the left) and walk the adjacency links into a row-major grid.
`none` models the panicking `unwrap` when no such corner exists. -/
def arrange_tiles (tiles : List Tile) : Option (List (List Tile)) :=
  match tiles.find? (fun t =>
      t.adjacent.size == 2 && !(t.adjacent.get 0).isSome && !(t.adjacent.get 3).isSome) with
  | none => none
  | some corner => follow_down tiles tiles.length corner

/-- `form_image`: strip the border of every tile, arrange them, and
concatenate the pixel rows of each row of tiles. -/
def form_image (tiles : List Tile) : Option (List (List Bool)) :=
  let stripped := tiles.map (fun t => { t with rows := strip_border t.rows })
  (arrange_tiles stripped).map (fun puzzle =>
    puzzle.foldl (fun image row =>
      let len := (row.headD default).rows.length
      let new_rows := row.foldl
        (fun (nr : List (List Bool)) tile => nr.zipWith (fun a b => a ++ b) tile.rows)
        (List.replicate len [])
      image ++ new_rows) [])

/-- The fixed sea monster motif: relative (row, column) offsets of its pixels. -/
def sea_monster : List (Nat × Nat) :=
  [(0, 18),
   (1, 0), (1, 5), (1, 6), (1, 11), (1, 12), (1, 17), (1, 18), (1, 19),
   (2, 1), (2, 4), (2, 7), (2, 10), (2, 13), (2, 16)]

/-- `find_number_sea_monsters`: count anchors (x, y) with
x in 0..=len-3 and y in 0..=len-20 where all 15 motif offsets hit an
on pixel. -/
def find_number_sea_monsters (image : List (List Bool)) : Nat :=
  (List.range (image.length - 3 + 1)).foldl (fun acc x =>
    (List.range (image.length - 20 + 1)).foldl (fun acc2 y =>
      acc2 + (if sea_monster.all (fun d => (image.getD (x + d.1) []).getD (y + d.2) false)
              then 1 else 0)) acc) 0

/-- The number of on pixels of an image
(`image.iter().flatten().map(|p| *p as u64).sum()`). -/
def count_on (image : List (List Bool)) : Nat :=
  (image.flatten.map (fun p => if p then 1 else 0)).sum

/-- The orientation-search loop of `get_water_roughness`: rotate, count, and
if still zero flip and count again, until a nonzero count.  The loop advances
the image by flip-after-rotate, whose square is the identity on square images,
so the search has period 2: fuel 4 is exhaustive and `none` models divergence
of the Rust loop. -/
def gwr_loop : Nat → List (List Bool) → Option (List (List Bool) × Nat)
  | 0, _ => none
  | fuel + 1, image =>
    let image1 := rotate_pixels image
    let n1 := find_number_sea_monsters image1
    if n1 ≠ 0 then some (image1, n1)
    else
      let image2 := flip_pixels image1
      let n2 := find_number_sea_monsters image2
      if n2 ≠ 0 then some (image2, n2)
      else gwr_loop fuel image2

/-- `get_water_roughness`: seek the image orientation containing sea monsters
and subtract 15 pixels per monster from the count of on pixels. -/
def get_water_roughness (image : List (List Bool)) : Option Nat :=
  let n0 := find_number_sea_monsters image
  (if n0 ≠ 0 then some (image, n0) else gwr_loop 4 image).map
    (fun p => count_on p.1 - p.2 * 15)

/-- The `all_edges` map of `part_one`: each tile's id with its edges in the
initial orientation. -/
def tile_edge_pairs (data : List Tile) : List (Nat × List TileRow) :=
  data.map (fun t => (t.id, t.edges))

/-- The `all_other_edges` set of `part_one`: every edge of every tile with a
different id, together with all their flips. -/
def part_one_all_other (all_edges : List (Nat × List TileRow)) (id : Nat) : List TileRow :=
  (all_edges.filter (fun qe => qe.1 ≠ id)).foldl
    (fun s qe => s ++ qe.2 ++ qe.2.map TileRow.flip) []

/-- The corner test of `part_one`: more than one of the tile's edges matches,
neither directly nor flipped, nothing in `all_other_edges`. -/
def part_one_is_corner (all_edges : List (Nat × List TileRow)) (pe : Nat × List TileRow) : Bool :=
  (pe.2.filter (fun e =>
    ¬ (part_one_all_other all_edges pe.1).contains e ∧
    ¬ (part_one_all_other all_edges pe.1).contains (TileRow.flip e))).length > 1

/-- `part_one`: corners are tiles having more than one edge which, directly or
flipped, matches no edge (directly or flipped) of any other tile; the answer
is the product of the corner ids. -/
def part_one (data : List Tile) : Option Nat :=
  some (((tile_edge_pairs data).foldl
    (fun corners pe =>
      if part_one_is_corner (tile_edge_pairs data) pe then corners ++ [pe.1] else corners)
    []).foldl (fun a b => a * b) 1)

/-- `part_two`: assemble the puzzle, form the image, check it is square
(the source's assert; failure panics, modelled by `none`), and compute the
water roughness. -/
def part_two (data : List Tile) : Option Nat :=
  (match_puzzle data).bind (fun tiles =>
  (form_image tiles).bind (fun image =>
  if image.all (fun row => row.length == image.length)
  then get_water_roughness image else none))

/-- Build a tile from its id and its rows given as strings of `#` and `.`,
as the excluded parser does. -/
def tile_of (id : Nat) (rows : List String) : Tile :=
  ⟨id, rows.map (fun s => s.data.map (fun c => c == '#')), Adj.empty, false⟩

/-- Tile 2311 of the canonical sample. -/
def tile2311 : Tile := tile_of 2311
  ["..##.#..#.", "##..#.....", "#...##..#.", "####.#...#", "##.##.###.",
   "##...#.###", ".#.#.#..##", "..#....#..", "###...#.#.", "..###..###"]

/-- Tile 1951 of the canonical sample. -/
def tile1951 : Tile := tile_of 1951
  ["#.##...##.", "#.####...#", ".....#..##", "#...######", ".##.#....#",
   ".###.#####", "###.##.##.", ".###....#.", "..#.#..#.#", "#...##.#.."]

/-- Tile 1171 of the canonical sample. -/
def tile1171 : Tile := tile_of 1171
  ["####...##.", "#..##.#..#", "##.#..#.#.", ".###.####.", "..###.####",
   ".##....##.", ".#...####.", "#.##.####.", "####..#...", ".....##..."]

/-- Tile 1427 of the canonical sample. -/
def tile1427 : Tile := tile_of 1427
  ["###.##.#..", ".#..#.##..", ".#.##.#..#", "#.#.#.##.#", "....#...##",
   "...##..##.", "...#.#####", ".#.####.#.", "..#..###.#", "..##.#..#."]

/-- Tile 1489 of the canonical sample. -/
def tile1489 : Tile := tile_of 1489
  ["##.#.#....", "..##...#..", ".##..##...", "..#...#...", "#####...#.",
   "#..#.#.#.#", "...#.#.#..", "##.#...##.", "..##.##.##", "###.##.#.."]

/-- Tile 2473 of the canonical sample. -/
def tile2473 : Tile := tile_of 2473
  ["#....####.", "#..#.##...", "#.##..#...", "######.#.#", ".#...#.#.#",
   ".#########", ".###.#..#.", "########.#", "##...##.#.", "..###.#.#."]

/-- Tile 2971 of the canonical sample. -/
def tile2971 : Tile := tile_of 2971
  ["..#.#....#", "#...###...", "#.#.###...", "##.##..#..", ".#####..##",
   ".#..####.#", "#..#.#..#.", "..####.###", "..#.#.###.", "...#.#.#.#"]

/-- Tile 2729 of the canonical sample. -/
def tile2729 : Tile := tile_of 2729
  ["...#.#.#.#", "####.#....", "..#.#.....", "....#..#.#", ".##..##.#.",
   ".#.####...", "####.#.#..", "##.####...", "##..#.##..", "#.##...##."]

/-- Tile 3079 of the canonical sample. -/
def tile3079 : Tile := tile_of 3079
  ["#.#.#####.", ".#..######", "..#.......", "######....", "####.#..#.",
   ".#...#.##.", "#.#####.##", "..#.###...", "..#.......", "..#.###..."]

/-- The canonical 3 by 3 sample of 9 tiles, in the order of the test input. -/
def sample_tiles : List Tile :=
  [tile2311, tile1951, tile1171, tile1427, tile1489, tile2473, tile2971, tile2729, tile3079]

/-- Tile 2311 mirrored about the vertical axis (an orientation of a
neighbouring tile used to examine the edge-matching convention). -/
def tile2311_mirror : Tile := { tile2311 with rows := flip_pixels tile2311.rows }

/-- A 20 by 20 image with no on pixel (no motif match in any orientation). -/
def all_false20 : List (List Bool) := List.replicate 20 (List.replicate 20 false)

/-- A 20 by 20 image holding exactly one sea monster, anchored at (0, 0). -/
def monster_image20 : List (List Bool) :=
  (List.range 20).map (fun x => (List.range 20).map (fun y => sea_monster.contains (x, y)))

/-- A 20 by 20 image whose 180 degree rotation holds exactly one sea monster:
pixel (x, y) is on exactly when (19 - x, 19 - y) is a motif offset. -/
def c2_image20 : List (List Bool) :=
  (List.range 20).map (fun x => (List.range 20).map (fun y => sea_monster.contains (19 - x, 19 - y)))

/-- Claim-side notion for `part_one`: the signature `e` occurs, directly or
bit-reversed, among the edge signatures of some tile of `data` other than
`t`. -/
def occurs_elsewhere (data : List Tile) (t : Tile) (e : TileRow) : Prop :=
  ∃ u ∈ data, u.id ≠ t.id ∧ (e ∈ u.edges ∨ ∃ e2 ∈ u.edges, e = TileRow.flip e2)

instance (data : List Tile) (t : Tile) (e : TileRow) : Decidable (occurs_elsewhere data t e) := by
  unfold occurs_elsewhere
  exact inferInstance

/-- Claim-side corner notion: at least 2 of the tile's edge signatures occur,
neither directly nor bit-reversed, among the other tiles' signatures and
their bit-reversals. -/
def is_corner_spec (data : List Tile) (t : Tile) : Prop :=
  2 ≤ (t.edges.filter (fun e =>
        decide (¬ occurs_elsewhere data t e ∧ ¬ occurs_elsewhere data t (TileRow.flip e)))).length

instance (data : List Tile) (t : Tile) : Decidable (is_corner_spec data t) := by
  unfold is_corner_spec
  exact inferInstance

/-- Claim-side value of `part_one`: identifiers of exactly the corner tiles. -/
def corner_ids_spec (data : List Tile) : List Nat :=
  (data.filter (fun t => decide (is_corner_spec data t))).map Tile.id

/-- A consistent completed assembly: the tiles are, up to order, a table
`T i j` (`i`, `j` below `m`) with injective identifiers whose adjacency maps
record exactly the grid neighbours on sides top = 0, right = 1, bottom = 2,
left = 3. -/
def grid_model (tiles : List Tile) (m : Nat) (T : Nat → Nat → Tile) : Prop :=
  tiles.Perm ((List.range m).map (fun i => (List.range m).map (fun j => T i j))).flatten ∧
  (∀ i, i < m → ∀ j, j < m → ∀ i2, i2 < m → ∀ j2, j2 < m →
    (T i j).id = (T i2 j2).id → i = i2 ∧ j = j2) ∧
  (∀ i, i < m → ∀ j, j < m →
    (T i j).adjacent.get 0 = (if i = 0 then none else some (T (i - 1) j).id) ∧
    (T i j).adjacent.get 1 = (if j = m - 1 then none else some (T i (j + 1)).id) ∧
    (T i j).adjacent.get 2 = (if i = m - 1 then none else some (T (i + 1) j).id) ∧
    (T i j).adjacent.get 3 = (if j = 0 then none else some (T i (j - 1)).id))

instance (tiles : List Tile) (m : Nat) (T : Nat → Nat → Tile) :
    Decidable (grid_model tiles m T) := by
  unfold grid_model
  refine @instDecidableAnd _ _ inferInstance (@instDecidableAnd _ _ ?_ inferInstance)
  exact Nat.decidableBallLT m _

/-- The (consistently assembled) one-tile puzzle: a single fixed tile with the
empty adjacency map. -/
def c6_single : Tile := ⟨7, [], Adj.empty, true⟩

/-- The table of the one-tile puzzle. -/
def c6_T1 : Nat → Nat → Tile := fun _ _ => c6_single

/-- Tiles of a consistently assembled 2 by 2 puzzle (pixel grids irrelevant
to arrangement). -/
def c6_t1 : Tile := ⟨1, [], ⟨none, some 2, some 3, none⟩, true⟩

/-- Second tile of the 2 by 2 puzzle. -/
def c6_t2 : Tile := ⟨2, [], ⟨none, none, some 4, some 1⟩, true⟩

/-- Third tile of the 2 by 2 puzzle. -/
def c6_t3 : Tile := ⟨3, [], ⟨some 1, some 4, none, none⟩, true⟩

/-- Fourth tile of the 2 by 2 puzzle. -/
def c6_t4 : Tile := ⟨4, [], ⟨some 2, none, none, some 3⟩, true⟩

/-- The 2 by 2 puzzle tile list. -/
def c6_four : List Tile := [c6_t1, c6_t2, c6_t3, c6_t4]

/-- The table of the 2 by 2 puzzle. -/
def c6_T2 : Nat → Nat → Tile := fun i j =>
  if i = 0 then (if j = 0 then c6_t1 else c6_t2) else (if j = 0 then c6_t3 else c6_t4)

/-- An already-fixed tile set with a complete, consistent adjacency graph:
identifiers are injective, every tile is fixed, and any tile `u` whose edge
set holds the bit-reversal of tile `t`'s edge `i` is recorded as `t`'s
neighbour on side `i`, presents that signature on the opposite side, and
records `t` back. -/
def all_fixed_consistent (tiles : List Tile) : Prop :=
  (tiles.map Tile.id).Nodup ∧
  (∀ t ∈ tiles, t.fixed = true) ∧
  (∀ t ∈ tiles, ∀ u ∈ tiles, ∀ i, i < 4 → u.id ≠ t.id →
    TileRow.flip (t.edges.getD i 0) ∈ u.edges →
      t.adjacent.get i = some u.id ∧
      u.edges.getD ((i + 2) % 4) 0 = TileRow.flip (t.edges.getD i 0) ∧
      u.adjacent.get ((i + 2) % 4) = some t.id)

instance (tiles : List Tile) : Decidable (all_fixed_consistent tiles) := by
  unfold all_fixed_consistent
  exact inferInstance

/-- A one-element already-fixed tile set. -/
def c7_single : List Tile := [{ tile2311 with fixed := true }]

set_option maxRecDepth 100000

/-- C1: on the canonical 3x3 sample of 9 tiles of size 10x10, the core
produces the corner-identifier product 20899048083289 (part one), a square
composite image of side length 24, and the roughness score 273 (part two). -/
theorem c1_end_to_end_sample :
    part_one sample_tiles = some 20899048083289 ∧
    ((match_puzzle sample_tiles).bind form_image).map
      (fun image => (image.length, image.all (fun row => row.length == 24))) = some (24, true) ∧
    part_two sample_tiles = some 273 := by
  decide

/-! ### Bit-level characterization of the edge bitfields -/

theorem testBit_or_shift (a p j : Nat) :
    Nat.testBit (a ||| (1 <<< p)) j = (a.testBit j || decide (p = j)) := by
  rw [Nat.testBit_or, Nat.shiftLeft_eq, one_mul, Nat.testBit_two_pow]

theorem setbits_go {α : Type} (l : List α) (g : α → Bool) (pos : α → Nat) (acc j : Nat) :
    Nat.testBit (l.foldl (fun a x => if g x then a ||| (1 <<< pos x) else a) acc) j
      = (acc.testBit j || l.any (fun x => g x && decide (pos x = j))) := by
  induction l generalizing acc with
  | nil => simp
  | cons x l ih =>
    rw [List.foldl_cons, List.any_cons, ih]
    cases hg : g x
    · simp [hg]
    · have hAB : (decide (pos x ≤ j) && Nat.testBit 1 (j - pos x)) = decide (pos x = j) := by
        rw [show Nat.testBit 1 (j - pos x) = decide (j - pos x = 0) from by
          simpa [eq_comm] using @Nat.testBit_two_pow 0 (j - pos x)]
        by_cases hle : pos x ≤ j
        · by_cases heq : pos x = j
          · simp [hle, heq]
          · have hne : ¬ (j - pos x = 0) := by omega
            simp [hle, heq, hne]
        · have hne : ¬ (pos x = j) := by omega
          simp [hle, hne]
      simp [hg, hAB, Bool.or_assoc]

theorem and_shift_ne (x i : Nat) : (x &&& (1 <<< i) != 0) = x.testBit i := by
  have h : x &&& (1 <<< i) = if x.testBit i then 1 <<< i else 0 := by
    apply Nat.eq_of_testBit_eq
    intro j
    rw [Nat.testBit_and, Nat.shiftLeft_eq, one_mul, Nat.testBit_two_pow]
    by_cases hij : i = j
    · subst hij; cases hb : x.testBit i <;>
        simp [hb, Nat.shiftLeft_eq, Nat.testBit_two_pow, Nat.zero_testBit]
    · cases hb : x.testBit i <;>
        simp [hb, hij, Nat.shiftLeft_eq, Nat.testBit_two_pow, Nat.zero_testBit]
  rw [h]
  cases hb : x.testBit i
  · simp
  · have : (1 : Nat) <<< i ≠ 0 := by
      rw [Nat.shiftLeft_eq, one_mul]
      exact (Nat.pos_pow_of_pos i (by omega)).ne'
    simp [this]

theorem from_vec_any (v : List Bool) (j : Nat) :
    (TileRow.from_vec v).testBit j
      = (v.reverse.enum).any (fun ip => ip.2 && decide (ip.1 = j)) := by
  unfold TileRow.from_vec
  rw [setbits_go]
  simp [Nat.zero_testBit]

theorem enumFrom_any_getD (l : List Bool) (k j : Nat) :
    ((l.enumFrom k).any (fun ip => ip.2 && decide (ip.1 = j)))
      = (decide (k ≤ j) && l.getD (j - k) false) := by
  induction l generalizing k with
  | nil => simp
  | cons b l ih =>
    rw [List.enumFrom_cons, List.any_cons, ih]
    rcases Nat.lt_trichotomy j k with h | h | h
    · have h1 : ¬ (k ≤ j) := by omega
      have h2 : ¬ (k + 1 ≤ j) := by omega
      have h3 : ¬ (k = j) := by omega
      simp [h1, h2, h3]
    · subst h
      simp [Nat.sub_self]
    · have h1 : k ≤ j := by omega
      have h2 : k + 1 ≤ j := by omega
      have h3 : ¬ (k = j) := by omega
      have h4 : j - k = (j - (k + 1)) + 1 := by omega
      simp [h1, h2, h3, h4]

theorem testBit_from_vec (v : List Bool) (j : Nat) :
    (TileRow.from_vec v).testBit j
      = (decide (j < v.length) && v.getD (v.length - 1 - j) false) := by
  rw [from_vec_any, List.enum, enumFrom_any_getD]
  simp only [Nat.zero_le, decide_True, Bool.true_and, Nat.sub_zero]
  by_cases h : j < v.length
  · have hr : j < v.reverse.length := by simpa using h
    rw [List.getD_eq_getElem?_getD, List.getElem?_reverse h, List.getD_eq_getElem?_getD]
    simp [h]
  · have h1 : v.reverse.length ≤ j := by simpa using Nat.le_of_not_lt h
    rw [List.getD_eq_getElem?_getD, List.getElem?_eq_none h1]
    simp [h]

theorem testBit_flip (x j : Nat) :
    (TileRow.flip x).testBit j = (decide (j < 10) && x.testBit (9 - j)) := by
  unfold TileRow.flip
  rw [setbits_go]
  simp only [Nat.zero_testBit, Bool.false_or, and_shift_ne]
  rcases Nat.lt_or_ge j 10 with h | h
  · have h9 : 10 - 1 - (9 - j) = j := by omega
    simp only [h, decide_True, Bool.true_and]
    cases hb : x.testBit (9 - j)
    · rw [List.any_eq_false]
      intro i hi
      rw [List.mem_range] at hi
      by_cases hij : 10 - 1 - i = j
      · have : i = 9 - j := by omega
        subst this
        simp [hb]
      · simp [hij]
    · rw [List.any_eq_true]
      exact ⟨9 - j, List.mem_range.mpr (by omega), by simp [hb, h9]⟩
  · have h2 : ¬ (j < 10) := by omega
    simp only [h2, decide_False, Bool.false_and]
    rw [List.any_eq_false]
    intro i hi
    rw [List.mem_range] at hi
    have : ¬ (10 - 1 - i = j) := by omega
    simp [this]

theorem enumFrom_any_iff {α : Type} (l : List α) (k : Nat) (q : Nat × α → Bool) :
    ((l.enumFrom k).any q = true) ↔ ∃ d, ∃ h : d < l.length, q (k + d, l.get ⟨d, h⟩) = true := by
  induction l generalizing k with
  | nil => simp
  | cons x l ih =>
    rw [List.enumFrom_cons, List.any_cons, Bool.or_eq_true]
    constructor
    · rintro (h | h)
      · exact ⟨0, by simp, by simpa using h⟩
      · obtain ⟨d, hd, hq⟩ := (ih (k + 1)).mp h
        refine ⟨d + 1, by simp only [List.length_cons]; omega, ?_⟩
        have harith : k + 1 + d = k + (d + 1) := by omega
        simpa [harith] using hq
    · rintro ⟨d, hd, hq⟩
      cases d with
      | zero => exact Or.inl (by simpa using hq)
      | succ d =>
        have hd2 : d < l.length := by
          simp only [List.length_cons] at hd
          omega
        refine Or.inr ((ih (k + 1)).mpr ⟨d, hd2, ?_⟩)
        have harith : k + 1 + d = k + (d + 1) := by omega
        simpa [harith] using hq

theorem dims_row (rows : List (List Bool)) (h : Dims10 rows) (x : Nat) (hx : x < 10) :
    (rows.getD x []).length = 10 := by
  obtain ⟨h1, h2⟩ := h
  have hx2 : x < rows.length := by omega
  rw [List.getD_eq_getElem?_getD, List.getElem?_eq_getElem hx2]
  exact h2 _ (List.getElem_mem hx2)

theorem getD_eq_get (rows : List (List Bool)) (x : Nat) (hx2 : x < rows.length) :
    rows.getD x [] = rows.get ⟨x, hx2⟩ := by
  rw [List.getD_eq_getElem?_getD, List.getElem?_eq_getElem hx2]
  rfl

theorem pix_eq_get (rows : List (List Bool)) (h : Dims10 rows) (x y : Nat)
    (hx : x < 10) (hy : y < 10) :
    ∃ hx2 : x < rows.length, pix rows x y = (rows.get ⟨x, hx2⟩).getD y false := by
  have h1 := h.1
  have hx2 : x < rows.length := by omega
  refine ⟨hx2, ?_⟩
  unfold pix
  rw [getD_eq_get rows x hx2]

theorem foldl_pair_split (l : List (Nat × List Bool)) (n : Nat) (a b : Nat) :
    l.foldl (fun (p : TileRow × TileRow) ir =>
      (if (ir.2.getD (n - 1) false) then p.1 ||| (1 <<< (n - 1 - ir.1)) else p.1,
       if (ir.2.getD 0 false) then p.2 ||| (1 <<< ir.1) else p.2)) (a, b)
    = (l.foldl (fun a2 ir => if (ir.2.getD (n - 1) false) then a2 ||| (1 <<< (n - 1 - ir.1)) else a2) a,
       l.foldl (fun b2 ir => if (ir.2.getD 0 false) then b2 ||| (1 <<< ir.1) else b2) b) := by
  induction l generalizing a b with
  | nil => rfl
  | cons ir l ih =>
    rw [List.foldl_cons, List.foldl_cons, List.foldl_cons]
    exact ih _ _

theorem edges_rows_right (rows : List (List Bool)) :
    (edges_rows rows).getD 1 0
      = rows.enum.foldl
          (fun a2 ir => if (ir.2.getD (rows.length - 1) false)
                        then a2 ||| (1 <<< (rows.length - 1 - ir.1)) else a2) 0 := by
  unfold edges_rows
  simp only [List.getD_cons_succ, List.getD_cons_zero]
  rw [foldl_pair_split]

theorem edges_rows_left (rows : List (List Bool)) :
    (edges_rows rows).getD 3 0
      = rows.enum.foldl
          (fun b2 ir => if (ir.2.getD 0 false) then b2 ||| (1 <<< ir.1) else b2) 0 := by
  unfold edges_rows
  simp only [List.getD_cons_succ, List.getD_cons_zero]
  rw [foldl_pair_split]

theorem testBit_edge_top (rows : List (List Bool)) (h : Dims10 rows) (j : Nat) :
    ((edges_rows rows).getD 0 0).testBit j = (decide (j < 10) && pix rows 0 (9 - j)) := by
  show (TileRow.from_vec (rows.getD 0 [])).testBit j = _
  rw [testBit_from_vec, dims_row rows h 0 (by omega)]
  rfl

theorem testBit_edge_bottom (rows : List (List Bool)) (h : Dims10 rows) (j : Nat) :
    ((edges_rows rows).getD 2 0).testBit j = (decide (j < 10) && pix rows 9 j) := by
  show (TileRow.flip (TileRow.from_vec (rows.getD (rows.length - 1) []))).testBit j = _
  rw [testBit_flip, testBit_from_vec, h.1, dims_row rows h 9 (by omega)]
  by_cases hj : j < 10
  · have e1 : 9 - j < 10 := by omega
    have e2 : 10 - 1 - (9 - j) = j := by omega
    simp [hj, e1, e2, pix]
  · simp [hj]

theorem testBit_edge_right (rows : List (List Bool)) (h : Dims10 rows) (j : Nat) :
    ((edges_rows rows).getD 1 0).testBit j = (decide (j < 10) && pix rows (9 - j) 9) := by
  have h1 := h.1
  rw [edges_rows_right, setbits_go, h1]
  simp only [Nat.zero_testBit, Bool.false_or]
  rw [Bool.eq_iff_iff, List.enum, enumFrom_any_iff]
  simp only [Bool.and_eq_true, decide_eq_true_iff, Nat.zero_add]
  constructor
  · rintro ⟨d, hd, hq1, hq2⟩
    have hj : j < 10 := by omega
    have hd9 : d = 9 - j := by omega
    subst hd9
    obtain ⟨hx2, hpix⟩ := pix_eq_get rows h (9 - j) 9 (by omega) (by omega)
    refine ⟨hj, ?_⟩
    rw [hpix]
    have hg : rows.get ⟨9 - j, hx2⟩ = rows.get ⟨9 - j, hd⟩ := rfl
    rw [hg]
    simpa using hq1
  · rintro ⟨hj, hpix⟩
    obtain ⟨hx2, hpixeq⟩ := pix_eq_get rows h (9 - j) 9 (by omega) (by omega)
    refine ⟨9 - j, by omega, ?_, by omega⟩
    rw [hpixeq] at hpix
    simpa using hpix

theorem testBit_edge_left (rows : List (List Bool)) (h : Dims10 rows) (j : Nat) :
    ((edges_rows rows).getD 3 0).testBit j = (decide (j < 10) && pix rows j 0) := by
  have h1 := h.1
  rw [edges_rows_left, setbits_go]
  simp only [Nat.zero_testBit, Bool.false_or]
  rw [Bool.eq_iff_iff, List.enum, enumFrom_any_iff]
  simp only [Bool.and_eq_true, decide_eq_true_iff, Nat.zero_add]
  constructor
  · rintro ⟨d, hd, hq1, hq2⟩
    subst hq2
    have hj : d < 10 := by omega
    obtain ⟨hx2, hpix⟩ := pix_eq_get rows h d 0 hj (by omega)
    refine ⟨hj, ?_⟩
    rw [hpix]
    simpa using hq1
  · rintro ⟨hj, hpix⟩
    obtain ⟨hx2, hpixeq⟩ := pix_eq_get rows h j 0 hj (by omega)
    refine ⟨j, by omega, ?_, rfl⟩
    rw [hpixeq] at hpix
    simpa using hpix

theorem getD_range_map {β : Type} (f : Nat → β) (n x : Nat) (hx : x < n) (d : β) :
    (((List.range n).map f).getD x d) = f x := by
  rw [List.getD_eq_getElem?_getD, List.getElem?_map, List.getElem?_range hx]
  rfl

theorem dims_rotate (rows : List (List Bool)) (h : Dims10 rows) :
    Dims10 (rotate_pixels rows) := by
  have hlen : (rows.getD 0 []).length = 10 := dims_row rows h 0 (by omega)
  unfold rotate_pixels Dims10
  simp only [hlen]
  constructor
  · simp
  · intro r hr
    simp only [List.mem_map, List.mem_range] at hr
    obtain ⟨x, hx, rfl⟩ := hr
    simp

theorem dims_flip (rows : List (List Bool)) (h : Dims10 rows) :
    Dims10 (flip_pixels rows) := by
  obtain ⟨h1, h2⟩ := h
  unfold flip_pixels Dims10
  constructor
  · simpa using h1
  · intro r hr
    simp only [List.mem_map] at hr
    obtain ⟨r0, hr0, rfl⟩ := hr
    simpa using h2 r0 hr0

theorem pix_rotate (rows : List (List Bool)) (h : Dims10 rows) (x y : Nat)
    (hx : x < 10) (hy : y < 10) :
    pix (rotate_pixels rows) x y = pix rows (9 - y) x := by
  have hlen : (rows.getD 0 []).length = 10 := dims_row rows h 0 (by omega)
  unfold rotate_pixels pix
  simp only [hlen]
  rw [getD_range_map _ 10 x hx, getD_range_map _ 10 y hy]

theorem pix_flip (rows : List (List Bool)) (h : Dims10 rows) (x y : Nat)
    (hx : x < 10) (hy : y < 10) :
    pix (flip_pixels rows) x y = pix rows x (9 - y) := by
  have h1 := h.1
  have hx2 : x < rows.length := by omega
  have hrowlen : (rows.getD x []).length = 10 := dims_row rows h x hx
  unfold flip_pixels pix
  have hmapped : (rows.map List.reverse).getD x [] = (rows.getD x []).reverse := by
    rw [getD_eq_get rows x hx2, List.getD_eq_getElem?_getD, List.getElem?_map,
        List.getElem?_eq_getElem hx2]
    rfl
  rw [hmapped]
  set r := rows.getD x [] with hr
  have hy2 : y < r.length := by omega
  rw [List.getD_eq_getElem?_getD, List.getElem?_reverse hy2, List.getD_eq_getElem?_getD]
  have h91 : r.length - 1 - y = 9 - y := by omega
  rw [h91]

theorem edges_rotate (rows : List (List Bool)) (h : Dims10 rows) :
    edges_rows (rotate_pixels rows)
      = [(edges_rows rows).getD 3 0, (edges_rows rows).getD 0 0,
         (edges_rows rows).getD 1 0, (edges_rows rows).getD 2 0] := by
  have hR := dims_rotate rows h
  have e0 : (edges_rows (rotate_pixels rows)).getD 0 0 = (edges_rows rows).getD 3 0 := by
    apply Nat.eq_of_testBit_eq
    intro j
    rw [testBit_edge_top _ hR j, testBit_edge_left _ h j]
    by_cases hj : j < 10
    · rw [pix_rotate rows h 0 (9 - j) (by omega) (by omega)]
      have h99 : 9 - (9 - j) = j := by omega
      rw [h99]
    · simp [hj]
  have e1 : (edges_rows (rotate_pixels rows)).getD 1 0 = (edges_rows rows).getD 0 0 := by
    apply Nat.eq_of_testBit_eq
    intro j
    rw [testBit_edge_right _ hR j, testBit_edge_top _ h j]
    by_cases hj : j < 10
    · rw [pix_rotate rows h (9 - j) 9 (by omega) (by omega)]
    · simp [hj]
  have e2 : (edges_rows (rotate_pixels rows)).getD 2 0 = (edges_rows rows).getD 1 0 := by
    apply Nat.eq_of_testBit_eq
    intro j
    rw [testBit_edge_bottom _ hR j, testBit_edge_right _ h j]
    by_cases hj : j < 10
    · rw [pix_rotate rows h 9 j (by omega) (by omega)]
    · simp [hj]
  have e3 : (edges_rows (rotate_pixels rows)).getD 3 0 = (edges_rows rows).getD 2 0 := by
    apply Nat.eq_of_testBit_eq
    intro j
    rw [testBit_edge_left _ hR j, testBit_edge_bottom _ h j]
    by_cases hj : j < 10
    · rw [pix_rotate rows h j 0 (by omega) (by omega)]
    · simp [hj]
  calc edges_rows (rotate_pixels rows)
      = [(edges_rows (rotate_pixels rows)).getD 0 0, (edges_rows (rotate_pixels rows)).getD 1 0,
         (edges_rows (rotate_pixels rows)).getD 2 0, (edges_rows (rotate_pixels rows)).getD 3 0] := rfl
    _ = [(edges_rows rows).getD 3 0, (edges_rows rows).getD 0 0,
         (edges_rows rows).getD 1 0, (edges_rows rows).getD 2 0] := by
        rw [e0, e1, e2, e3]

theorem edges_flip (rows : List (List Bool)) (h : Dims10 rows) :
    edges_rows (flip_pixels rows)
      = [TileRow.flip ((edges_rows rows).getD 0 0), TileRow.flip ((edges_rows rows).getD 3 0),
         TileRow.flip ((edges_rows rows).getD 2 0), TileRow.flip ((edges_rows rows).getD 1 0)] := by
  have hF := dims_flip rows h
  have e0 : (edges_rows (flip_pixels rows)).getD 0 0
      = TileRow.flip ((edges_rows rows).getD 0 0) := by
    apply Nat.eq_of_testBit_eq
    intro j
    rw [testBit_edge_top _ hF j, testBit_flip, testBit_edge_top _ h (9 - j)]
    by_cases hj : j < 10
    · rw [pix_flip rows h 0 (9 - j) (by omega) (by omega)]
      simp [hj, show 9 - j < 10 by omega]
    · simp [hj]
  have e1 : (edges_rows (flip_pixels rows)).getD 1 0
      = TileRow.flip ((edges_rows rows).getD 3 0) := by
    apply Nat.eq_of_testBit_eq
    intro j
    rw [testBit_edge_right _ hF j, testBit_flip, testBit_edge_left _ h (9 - j)]
    by_cases hj : j < 10
    · rw [pix_flip rows h (9 - j) 9 (by omega) (by omega)]
      simp [hj, show 9 - j < 10 by omega]
    · simp [hj]
  have e2 : (edges_rows (flip_pixels rows)).getD 2 0
      = TileRow.flip ((edges_rows rows).getD 2 0) := by
    apply Nat.eq_of_testBit_eq
    intro j
    rw [testBit_edge_bottom _ hF j, testBit_flip, testBit_edge_bottom _ h (9 - j)]
    by_cases hj : j < 10
    · rw [pix_flip rows h 9 j (by omega) (by omega)]
      simp [hj, show 9 - j < 10 by omega]
    · simp [hj]
  have e3 : (edges_rows (flip_pixels rows)).getD 3 0
      = TileRow.flip ((edges_rows rows).getD 1 0) := by
    apply Nat.eq_of_testBit_eq
    intro j
    rw [testBit_edge_left _ hF j, testBit_flip, testBit_edge_right _ h (9 - j)]
    by_cases hj : j < 10
    · rw [pix_flip rows h j 0 (by omega) (by omega)]
      have h99 : 9 - (9 - j) = j := by omega
      simp [hj, show 9 - j < 10 by omega, h99]
    · simp [hj]
  calc edges_rows (flip_pixels rows)
      = [(edges_rows (flip_pixels rows)).getD 0 0, (edges_rows (flip_pixels rows)).getD 1 0,
         (edges_rows (flip_pixels rows)).getD 2 0, (edges_rows (flip_pixels rows)).getD 3 0] := rfl
    _ = _ := by rw [e0, e1, e2, e3]

theorem edge_getD_lt (rows : List (List Bool)) (h : Dims10 rows) (k : Nat) (hk : k < 4) :
    (edges_rows rows).getD k 0 < 2 ^ 10 := by
  have hchar : ∀ j, 10 ≤ j → ((edges_rows rows).getD k 0).testBit j = false := by
    intro j hj
    have hj2 : ¬ (j < 10) := by omega
    interval_cases k
    · rw [testBit_edge_top _ h]; simp [hj2]
    · rw [testBit_edge_right _ h]; simp [hj2]
    · rw [testBit_edge_bottom _ h]; simp [hj2]
    · rw [testBit_edge_left _ h]; simp [hj2]
  have hmod : (edges_rows rows).getD k 0 = (edges_rows rows).getD k 0 % 2 ^ 10 := by
    apply Nat.eq_of_testBit_eq
    intro j
    rw [Nat.testBit_mod_two_pow]
    by_cases hj : j < 10
    · simp [hj]
    · rw [hchar j (by omega)]
      simp [hj]
  rw [hmod]
  exact Nat.mod_lt _ (by norm_num)

theorem edges_rows_as_getD (rows : List (List Bool)) :
    edges_rows rows
      = [(edges_rows rows).getD 0 0, (edges_rows rows).getD 1 0,
         (edges_rows rows).getD 2 0, (edges_rows rows).getD 3 0] := rfl

theorem mem_edges_lt (rows : List (List Bool)) (h : Dims10 rows) :
    ∀ e ∈ edges_rows rows, e < 2 ^ 10 := by
  intro e he
  rw [edges_rows_as_getD] at he
  simp only [List.mem_cons, List.not_mem_nil, or_false] at he
  rcases he with rfl | rfl | rfl | rfl
  · exact edge_getD_lt rows h 0 (by omega)
  · exact edge_getD_lt rows h 1 (by omega)
  · exact edge_getD_lt rows h 2 (by omega)
  · exact edge_getD_lt rows h 3 (by omega)

theorem flip_lt (x : Nat) : TileRow.flip x < 2 ^ 10 := by
  have hmod : TileRow.flip x = TileRow.flip x % 2 ^ 10 := by
    apply Nat.eq_of_testBit_eq
    intro j
    rw [Nat.testBit_mod_two_pow, testBit_flip]
    by_cases hj : j < 10 <;> simp [hj]
  rw [hmod]
  exact Nat.mod_lt _ (by norm_num)

theorem flip_flip (x : Nat) (hx : x < 2 ^ 10) :
    TileRow.flip (TileRow.flip x) = x := by
  apply Nat.eq_of_testBit_eq
  intro j
  rw [testBit_flip, testBit_flip]
  by_cases hj : j < 10
  · have h9 : 9 - j < 10 := by omega
    have h99 : 9 - (9 - j) = j := by omega
    simp [hj, h9, h99]
  · have hxj : x.testBit j = false := by
      have hle : x < 2 ^ j :=
        Nat.lt_of_lt_of_le hx (Nat.pow_le_pow_right (by omega) (by omega))
      exact Nat.testBit_lt_two_pow hle
    simp [hj, hxj]

theorem edges_getD_mem (rows : List (List Bool)) (k : Nat) (hk : k < 4) :
    (edges_rows rows).getD k 0 ∈ edges_rows rows := by
  interval_cases k
  · exact List.mem_cons_self _ _
  · exact List.mem_cons_of_mem _ (List.mem_cons_self _ _)
  · exact List.mem_cons_of_mem _ (List.mem_cons_of_mem _ (List.mem_cons_self _ _))
  · exact List.mem_cons_of_mem _
      (List.mem_cons_of_mem _ (List.mem_cons_of_mem _ (List.mem_cons_self _ _)))

theorem flip_mem_closure (E : List TileRow) (hE : ∀ e ∈ E, e < 2 ^ 10) (s : TileRow)
    (hs : s ∈ E ∨ ∃ e ∈ E, s = TileRow.flip e) :
    TileRow.flip s ∈ E ∨ ∃ e ∈ E, TileRow.flip s = TileRow.flip e := by
  rcases hs with hs | ⟨e, he, rfl⟩
  · exact Or.inr ⟨s, hs, rfl⟩
  · rw [flip_flip e (hE e he)]
    exact Or.inl he

theorem apply_ops_dims (ops : List Bool) (rows : List (List Bool)) (h : Dims10 rows) :
    Dims10 (apply_ops ops rows) := by
  induction ops generalizing rows with
  | nil => exact h
  | cons b ops ih =>
    cases b
    · exact ih _ (dims_flip rows h)
    · exact ih _ (dims_rotate rows h)

theorem apply_ops_edges_aux (E : List TileRow) (hE : ∀ e ∈ E, e < 2 ^ 10)
    (ops : List Bool) :
    ∀ g : List (List Bool), Dims10 g →
      (∀ s ∈ edges_rows g, s ∈ E ∨ ∃ e ∈ E, s = TileRow.flip e) →
      ∀ s ∈ edges_rows (apply_ops ops g), s ∈ E ∨ ∃ e ∈ E, s = TileRow.flip e := by
  induction ops with
  | nil => intro g _ hinv s hs; exact hinv s hs
  | cons b ops ih =>
    intro g hg hinv
    cases b
    · refine ih (flip_pixels g) (dims_flip g hg) ?_
      intro s hs
      rw [edges_flip g hg] at hs
      simp only [List.mem_cons, List.not_mem_nil, or_false] at hs
      rcases hs with rfl | rfl | rfl | rfl
      · exact flip_mem_closure E hE _ (hinv _ (edges_getD_mem g 0 (by omega)))
      · exact flip_mem_closure E hE _ (hinv _ (edges_getD_mem g 3 (by omega)))
      · exact flip_mem_closure E hE _ (hinv _ (edges_getD_mem g 2 (by omega)))
      · exact flip_mem_closure E hE _ (hinv _ (edges_getD_mem g 1 (by omega)))
    · refine ih (rotate_pixels g) (dims_rotate g hg) ?_
      intro s hs
      rw [edges_rotate g hg] at hs
      simp only [List.mem_cons, List.not_mem_nil, or_false] at hs
      rcases hs with rfl | rfl | rfl | rfl
      · exact hinv _ (edges_getD_mem g 3 (by omega))
      · exact hinv _ (edges_getD_mem g 0 (by omega))
      · exact hinv _ (edges_getD_mem g 1 (by omega))
      · exact hinv _ (edges_getD_mem g 2 (by omega))

/-- C9: on a 10 by 10 grid with edges [t, r, b, l], a 90 degree clockwise
rotation cyclically permutes the signatures unchanged to [l, t, r, b], a
mirror about the vertical axis yields [reverse t, reverse l, reverse b,
reverse r], and consequently any sequence of reorientations only produces
signatures from the tile's signature/reversal set. -/
theorem c9_reorientation_edges (rows : List (List Bool)) (h : Dims10 rows) :
    edges_rows (rotate_pixels rows)
      = [(edges_rows rows).getD 3 0, (edges_rows rows).getD 0 0,
         (edges_rows rows).getD 1 0, (edges_rows rows).getD 2 0] ∧
    edges_rows (flip_pixels rows)
      = [TileRow.flip ((edges_rows rows).getD 0 0), TileRow.flip ((edges_rows rows).getD 3 0),
         TileRow.flip ((edges_rows rows).getD 2 0), TileRow.flip ((edges_rows rows).getD 1 0)] ∧
    ∀ ops : List Bool, ∀ s ∈ edges_rows (apply_ops ops rows),
      s ∈ edges_rows rows ∨ ∃ e ∈ edges_rows rows, s = TileRow.flip e :=
  ⟨edges_rotate rows h, edges_flip rows h,
   fun ops =>
     apply_ops_edges_aux (edges_rows rows) (mem_edges_lt rows h) ops rows h
       (fun s hs => Or.inl hs)⟩

/-- Witness for C9 at the first sample tile. -/
theorem c9_witness :
    edges_rows (rotate_pixels tile2311.rows)
      = [(edges_rows tile2311.rows).getD 3 0, (edges_rows tile2311.rows).getD 0 0,
         (edges_rows tile2311.rows).getD 1 0, (edges_rows tile2311.rows).getD 2 0] ∧
    edges_rows (flip_pixels tile2311.rows)
      = [TileRow.flip ((edges_rows tile2311.rows).getD 0 0),
         TileRow.flip ((edges_rows tile2311.rows).getD 3 0),
         TileRow.flip ((edges_rows tile2311.rows).getD 2 0),
         TileRow.flip ((edges_rows tile2311.rows).getD 1 0)] :=
  ⟨(c9_reorientation_edges tile2311.rows (by decide)).1,
   (c9_reorientation_edges tile2311.rows (by decide)).2.1⟩

theorem getD_reverse_len (v : List Bool) (k : Nat) (hk : k < v.length) :
    v.reverse.getD k false = v.getD (v.length - 1 - k) false := by
  rw [List.getD_eq_getElem?_getD, List.getElem?_reverse hk, List.getD_eq_getElem?_getD]

/-- C10 counterexample: the claimed equivalence "flip(from_vec v) =
from_vec (reverse v) holds exactly when v has length 10" fails right to left:
the length-1 row [false] satisfies the equation. -/
theorem c10_counterexample :
    TileRow.flip (TileRow.from_vec [false]) = TileRow.from_vec ([false] : List Bool).reverse ∧
    ([false] : List Bool).length ≠ 10 := by
  decide

/-- C10 amended: `TileRow::flip` hardcodes a 10-bit width: it is an involution
on values with bits confined to positions 0 through 9, and
flip(from_vec v) = from_vec (reverse v) holds for every row of length exactly
10, while for every other length n with 1 ≤ n ≤ 16 (the widths whose `u16`
shifts are defined) some row of length n violates the equation — though rows
of other lengths can satisfy it accidentally, e.g. all-off rows, so edge
matching carries the unstated precondition that tiles are exactly 10 pixels
wide. -/
theorem c10_flip_ten_bit :
    (∀ x : TileRow, x < 2 ^ 10 → TileRow.flip (TileRow.flip x) = x) ∧
    (∀ v : List Bool, v.length = 10 →
      TileRow.flip (TileRow.from_vec v) = TileRow.from_vec v.reverse) ∧
    (∀ n : Nat, 1 ≤ n → n ≤ 16 → n ≠ 10 →
      TileRow.flip (TileRow.from_vec (true :: List.replicate (n - 1) false))
        ≠ TileRow.from_vec (true :: List.replicate (n - 1) false).reverse) := by
  refine ⟨flip_flip, ?_, ?_⟩
  · intro v hv
    apply Nat.eq_of_testBit_eq
    intro j
    rw [testBit_flip, testBit_from_vec, testBit_from_vec, List.length_reverse, hv]
    by_cases hj : j < 10
    · have h1 : 9 - j < 10 := by omega
      have h2 : (10 : Nat) - 1 - (9 - j) = j := by omega
      have h3 : (10 : Nat) - 1 - j = 9 - j := by omega
      rw [h2, h3, getD_reverse_len v (9 - j) (by omega), hv, h2]
      simp [hj, h1]
    · simp [hj]
  · intro n h1 h16 h10
    interval_cases n <;> first
      | exact absurd rfl h10
      | decide

/-- Witness for C10's amended claim at concrete inputs. -/
theorem c10_witness :
    TileRow.flip (TileRow.flip 613) = 613 ∧
    TileRow.flip (TileRow.from_vec (List.replicate 10 true))
      = TileRow.from_vec (List.replicate 10 true).reverse ∧
    TileRow.flip (TileRow.from_vec (true :: List.replicate 2 false))
      ≠ TileRow.from_vec (true :: List.replicate 2 false).reverse :=
  ⟨c10_flip_ten_bit.1 613 (by decide),
   c10_flip_ten_bit.2.1 (List.replicate 10 true) (by decide),
   c10_flip_ten_bit.2.2 3 (by decide) (by decide) (by decide)⟩

/-- C8 counterexample: with A the first sample tile and B its mirror (an
orientation of an adjacent tile), A's right edge bit-reversed equals B's left
edge, but the unreversed signatures differ — so "A's right-edge signature
(not reversed) equals B's left-edge signature" fails. -/
theorem c8_counterexample :
    TileRow.flip (tile2311.edges.getD 1 0) = tile2311_mirror.edges.getD 3 0 ∧
    tile2311.edges.getD 1 0 ≠ tile2311_mirror.edges.getD 3 0 := by
  decide

/-- C8 amended: edge matching under the adjacency convention is symmetric up
to one bit-reversal: for 10 by 10 tiles A and B (B in any already-applied
orientation), A's right edge reversed equals B's left edge exactly when B's
left edge reversed equals A's right edge, and exactly when the two facing
pixel columns agree pointwise; the unreversed signatures agree only for
palindromic edges. -/
theorem c8_edge_match_symmetric (A B : Tile) (hA : Dims10 A.rows) (hB : Dims10 B.rows) :
    (TileRow.flip (A.edges.getD 1 0) = B.edges.getD 3 0
      ↔ TileRow.flip (B.edges.getD 3 0) = A.edges.getD 1 0) ∧
    (TileRow.flip (A.edges.getD 1 0) = B.edges.getD 3 0
      ↔ ∀ k, k < 10 → pix A.rows k 9 = pix B.rows k 0) := by
  simp only [Tile.edges]
  have hAr := edge_getD_lt A.rows hA 1 (by omega)
  have hBl := edge_getD_lt B.rows hB 3 (by omega)
  constructor
  · constructor
    · intro hEq
      rw [← hEq, flip_flip _ hAr]
    · intro hEq
      rw [← hEq, flip_flip _ hBl]
  · constructor
    · intro hEq k hk
      have hbit := congrArg (fun z => Nat.testBit z k) hEq
      simp only at hbit
      rw [testBit_flip, testBit_edge_right _ hA, testBit_edge_left _ hB] at hbit
      have h99 : 9 - (9 - k) = k := by omega
      rw [h99] at hbit
      simpa [hk, show 9 - k < 10 by omega] using hbit
    · intro hPix
      apply Nat.eq_of_testBit_eq
      intro j
      rw [testBit_flip, testBit_edge_right _ hA, testBit_edge_left _ hB]
      by_cases hj : j < 10
      · have h99 : 9 - (9 - j) = j := by omega
        rw [h99]
        simp [hj, show 9 - j < 10 by omega, hPix j hj]
      · simp [hj]

/-- Witness for C8's amended claim at the first sample tile and its mirror. -/
theorem c8_witness :
    TileRow.flip (tile2311.edges.getD 1 0) = tile2311_mirror.edges.getD 3 0
      ↔ TileRow.flip (tile2311_mirror.edges.getD 3 0) = tile2311.edges.getD 1 0 :=
  (c8_edge_match_symmetric tile2311 tile2311_mirror (by decide) (by decide)).1

theorem rotate_loop_succ (fuel : Nat) (t : Tile) (idx : Nat) (edge : TileRow) :
    rotate_loop (fuel + 1) t idx edge
      = if (edges_rows t.rows).getD idx 0 = edge then some t
        else rotate_loop fuel { t with rows := rotate_pixels t.rows } idx edge := rfl

theorem rotate_loop_succeeds (t : Tile) (idx : Nat) (edge : TileRow)
    (h : Dims10 t.rows) (hidx : idx < 4) (hmem : edge ∈ edges_rows t.rows) :
    ∃ t2, rotate_loop 4 t idx edge = some t2 ∧
      (edges_rows t2.rows).getD idx 0 = edge ∧ t2.fixed = t.fixed := by
  obtain ⟨tid, trows, tadj, tfix⟩ := t
  simp only at h hmem ⊢
  have hd1 : Dims10 (rotate_pixels trows) := dims_rotate _ h
  have hd2 : Dims10 (rotate_pixels (rotate_pixels trows)) := dims_rotate _ hd1
  have E1 := edges_rotate _ h
  have E2 := edges_rotate _ hd1
  have E3 := edges_rotate _ hd2
  by_cases g0 : (edges_rows trows).getD idx 0 = edge
  · refine ⟨⟨tid, trows, tadj, tfix⟩, ?_, g0, rfl⟩
    rw [rotate_loop_succ, if_pos g0]
  · have u0 : rotate_loop 4 ⟨tid, trows, tadj, tfix⟩ idx edge
        = rotate_loop 3 ⟨tid, rotate_pixels trows, tadj, tfix⟩ idx edge := by
      rw [rotate_loop_succ, if_neg g0]
    by_cases g1 : (edges_rows (rotate_pixels trows)).getD idx 0 = edge
    · refine ⟨⟨tid, rotate_pixels trows, tadj, tfix⟩, ?_, g1, rfl⟩
      rw [u0, rotate_loop_succ, if_pos g1]
    · have u1 : rotate_loop 3 ⟨tid, rotate_pixels trows, tadj, tfix⟩ idx edge
          = rotate_loop 2 ⟨tid, rotate_pixels (rotate_pixels trows), tadj, tfix⟩ idx edge := by
        rw [rotate_loop_succ, if_neg g1]
      by_cases g2 : (edges_rows (rotate_pixels (rotate_pixels trows))).getD idx 0 = edge
      · refine ⟨⟨tid, rotate_pixels (rotate_pixels trows), tadj, tfix⟩, ?_, g2, rfl⟩
        rw [u0, u1, rotate_loop_succ, if_pos g2]
      · have u2 : rotate_loop 2 ⟨tid, rotate_pixels (rotate_pixels trows), tadj, tfix⟩ idx edge
            = rotate_loop 1 ⟨tid, rotate_pixels (rotate_pixels (rotate_pixels trows)), tadj, tfix⟩
                idx edge := by
          rw [rotate_loop_succ, if_neg g2]
        by_cases g3 : (edges_rows (rotate_pixels (rotate_pixels (rotate_pixels trows)))).getD idx 0 = edge
        · refine ⟨⟨tid, rotate_pixels (rotate_pixels (rotate_pixels trows)), tadj, tfix⟩, ?_, g3, rfl⟩
          rw [u0, u1, u2, rotate_loop_succ, if_pos g3]
        · exfalso
          rw [edges_rows_as_getD trows] at hmem
          simp only [List.mem_cons, List.not_mem_nil, or_false] at hmem
          rw [E1] at E2
          simp only [List.getD_cons_succ, List.getD_cons_zero] at E2
          rw [E2] at E3
          simp only [List.getD_cons_succ, List.getD_cons_zero] at E3
          rw [E1] at g1
          rw [E2] at g2
          rw [E3] at g3
          interval_cases idx <;>
            simp only [List.getD_cons_succ, List.getD_cons_zero] at g0 g1 g2 g3 <;>
            rcases hmem with rfl | rfl | rfl | rfl <;>
            simp_all

/-- C5: an unfixed candidate tile selected because its current edge set holds
the required signature or its bit-reversal is oriented by at most one mirror
and at most 3 rotations (fuel 4 of `rotate_loop` covers rotations 0..3) until
its edge opposite the probed side `i` equals the target exactly; in
particular the rotate-until-match loop terminates and the candidate ends up
fixed.  The sought signature is always the bit-reversal of a 10-bit edge,
hence below 2 to the 10th. -/
theorem c5_orient_terminates (em : Tile) (i : Nat) (edge : TileRow)
    (hfix : em.fixed = false) (hdims : Dims10 em.rows) (hlt : edge < 2 ^ 10)
    (hsel : edge ∈ edges_rows em.rows ∨ TileRow.flip edge ∈ edges_rows em.rows) :
    ∃ t2, orient_candidate em i edge = some t2 ∧
      (edges_rows t2.rows).getD ((i + 2) % 4) 0 = edge ∧ t2.fixed = true := by
  unfold orient_candidate
  have hnotfix : ¬ (em.fixed = true) := by simp [hfix]
  rw [if_neg hnotfix]
  by_cases hc : (edges_rows em.rows).contains edge
  · have hmem : edge ∈ edges_rows em.rows := by simpa using hc
    obtain ⟨t2, hloop, hedge, _⟩ :=
      rotate_loop_succeeds em ((i + 2) % 4) edge hdims (by omega) hmem
    refine ⟨{ t2 with fixed := true }, ?_, hedge, rfl⟩
    rw [if_neg (not_not_intro hc), hloop]
    rfl
  · have hmem2 : TileRow.flip edge ∈ edges_rows em.rows := by
      rcases hsel with hs | hs
      · exact absurd (by simpa using hs) hc
      · exact hs
    have hmem3 : edge ∈ edges_rows (flip_pixels em.rows) := by
      rw [edges_flip _ hdims]
      rw [edges_rows_as_getD em.rows] at hmem2
      simp only [List.mem_cons, List.not_mem_nil, or_false] at hmem2
      have hflipeq : ∀ p : TileRow, TileRow.flip edge = p → edge = TileRow.flip p := by
        intro p hp
        rw [← hp, flip_flip edge hlt]
      rcases hmem2 with hp | hp | hp | hp <;> rw [hflipeq _ hp] <;> simp
    obtain ⟨t2, hloop, hedge, _⟩ :=
      rotate_loop_succeeds { em with rows := flip_pixels em.rows } ((i + 2) % 4) edge
        (dims_flip _ hdims) (by omega) hmem3
    refine ⟨{ t2 with fixed := true }, ?_, hedge, rfl⟩
    rw [if_pos hc, hloop]
    rfl

/-- Witness for C5: orienting the first sample tile (unfixed) so that its
edge opposite side 1 becomes its own left-edge signature. -/
theorem c5_witness :
    ∃ t2, orient_candidate tile2311 1 ((edges_rows tile2311.rows).getD 3 0) = some t2 ∧
      (edges_rows t2.rows).getD ((1 + 2) % 4) 0 = (edges_rows tile2311.rows).getD 3 0 ∧
      t2.fixed = true :=
  c5_orient_terminates tile2311 1 ((edges_rows tile2311.rows).getD 3 0)
    (by decide) (by decide) (by decide) (Or.inl (by decide))

theorem row0_len (n : Nat) (g : List (List Bool)) (h1 : g.length = n)
    (h2 : ∀ r ∈ g, r.length = n) (hpos : 0 < n) : (g.getD 0 []).length = n := by
  have h0 : 0 < g.length := by omega
  rw [getD_eq_get g 0 h0]
  exact h2 _ (List.get_mem g _ _)

theorem dimsn_rotate (n : Nat) (g : List (List Bool)) (h1 : g.length = n)
    (h2 : ∀ r ∈ g, r.length = n) :
    (rotate_pixels g).length = n ∧ ∀ r ∈ rotate_pixels g, r.length = n := by
  rcases Nat.eq_zero_or_pos n with h0 | hpos
  · have hnil : g = [] := List.length_eq_zero.mp (by omega)
    subst hnil
    subst h0
    exact ⟨rfl, by intro r hr; simp [rotate_pixels] at hr⟩
  · have hl0 := row0_len n g h1 h2 hpos
    unfold rotate_pixels
    simp only [hl0]
    refine ⟨by simp, ?_⟩
    intro r hr
    simp only [List.mem_map, List.mem_range] at hr
    obtain ⟨x, _, rfl⟩ := hr
    simp

theorem dimsn_flip (n : Nat) (g : List (List Bool)) (h1 : g.length = n)
    (h2 : ∀ r ∈ g, r.length = n) :
    (flip_pixels g).length = n ∧ ∀ r ∈ flip_pixels g, r.length = n := by
  unfold flip_pixels
  refine ⟨by simpa using h1, ?_⟩
  intro r hr
  simp only [List.mem_map] at hr
  obtain ⟨r0, hr0, rfl⟩ := hr
  simpa using h2 r0 hr0

theorem pix_rotate_n (n : Nat) (g : List (List Bool)) (h1 : g.length = n)
    (h2 : ∀ r ∈ g, r.length = n) (x y : Nat) (hx : x < n) (hy : y < n) :
    pix (rotate_pixels g) x y = pix g (n - 1 - y) x := by
  have hl0 := row0_len n g h1 h2 (by omega)
  unfold rotate_pixels pix
  simp only [hl0]
  rw [getD_range_map _ n x hx, getD_range_map _ n y hy]

theorem pix_flip_n (n : Nat) (g : List (List Bool)) (h1 : g.length = n)
    (h2 : ∀ r ∈ g, r.length = n) (x y : Nat) (hx : x < n) (hy : y < n) :
    pix (flip_pixels g) x y = pix g x (n - 1 - y) := by
  have hx2 : x < g.length := by omega
  have hrowlen : (g.getD x []).length = n := by
    rw [getD_eq_get g x hx2]
    exact h2 _ (List.get_mem g _ _)
  unfold flip_pixels pix
  have hmapped : (g.map List.reverse).getD x [] = (g.getD x []).reverse := by
    rw [getD_eq_get g x hx2, List.getD_eq_getElem?_getD, List.getElem?_map,
        List.getElem?_eq_getElem hx2]
    rfl
  rw [hmapped]
  set r := g.getD x [] with hr
  have hy2 : y < r.length := by omega
  rw [List.getD_eq_getElem?_getD, List.getElem?_reverse hy2, List.getD_eq_getElem?_getD]
  have h91 : r.length - 1 - y = n - 1 - y := by omega
  rw [h91]

theorem pix_eq_getElem_all (g : List (List Bool)) (x y : Nat) (hx : x < g.length)
    (hy : y < (g.get ⟨x, hx⟩).length) :
    pix g x y = (g.get ⟨x, hx⟩).get ⟨y, hy⟩ := by
  unfold pix
  rw [getD_eq_get g x hx, List.getD_eq_getElem?_getD, List.getElem?_eq_getElem hy]
  rfl

theorem gwr_cycle (img : List (List Bool)) (h : SquareImage img) :
    flip_pixels (rotate_pixels (flip_pixels (rotate_pixels img))) = img := by
  have h1 : img.length = img.length := rfl
  have h2 : ∀ r ∈ img, r.length = img.length := h
  rcases Nat.eq_zero_or_pos img.length with h0 | hpos
  · have hnil : img = [] := List.length_eq_zero.mp (by omega)
    subst hnil
    rfl
  · set n := img.length with hn
    have dR := dimsn_rotate n img h1 h2
    have dFR := dimsn_flip n _ dR.1 dR.2
    have dRFR := dimsn_rotate n _ dFR.1 dFR.2
    have dFRFR := dimsn_flip n _ dRFR.1 dRFR.2
    apply List.ext_get (by rw [dFRFR.1])
    intro x hx1 hx2
    have hx : x < n := by rw [dFRFR.1] at hx1; exact hx1
    apply List.ext_get
    · rw [dFRFR.2 _ (List.get_mem _ _ _), h2 _ (List.get_mem _ _ _)]
    · intro y hy1 hy2
      have hy : y < n := by
        rw [dFRFR.2 _ (List.get_mem _ _ _)] at hy1
        exact hy1
      rw [← pix_eq_getElem_all _ x y hx1 hy1, ← pix_eq_getElem_all _ x y hx2 hy2]
      rw [pix_flip_n n _ dRFR.1 dRFR.2 x y hx hy,
          pix_rotate_n n _ dFR.1 dFR.2 x (n - 1 - y) hx (by omega),
          pix_flip_n n _ dR.1 dR.2 (n - 1 - (n - 1 - y)) x (by omega) hx,
          pix_rotate_n n img h1 h2 (n - 1 - (n - 1 - y)) (n - 1 - x) (by omega) (by omega)]
      have e1 : n - 1 - (n - 1 - x) = x := by omega
      have e2 : n - 1 - (n - 1 - y) = y := by omega
      rw [e1, e2]

theorem gwr_loop_succ (fuel : Nat) (image : List (List Bool)) :
    gwr_loop (fuel + 1) image
      = (if find_number_sea_monsters (rotate_pixels image) ≠ 0
         then some (rotate_pixels image, find_number_sea_monsters (rotate_pixels image))
         else if find_number_sea_monsters (flip_pixels (rotate_pixels image)) ≠ 0
              then some (flip_pixels (rotate_pixels image),
                         find_number_sea_monsters (flip_pixels (rotate_pixels image)))
              else gwr_loop fuel (flip_pixels (rotate_pixels image))) := rfl

theorem get_water_roughness_eq (image : List (List Bool)) :
    get_water_roughness image
      = (if find_number_sea_monsters image ≠ 0
         then some (image, find_number_sea_monsters image)
         else gwr_loop 4 image).map (fun p => count_on p.1 - p.2 * 15) := rfl

theorem gwr_loop_none (img : List (List Bool)) (h : SquareImage img)
    (h0 : find_number_sea_monsters img = 0)
    (h1 : find_number_sea_monsters (rotate_pixels img) = 0)
    (h2 : find_number_sea_monsters (flip_pixels (rotate_pixels img)) = 0)
    (h3 : find_number_sea_monsters (rotate_pixels (flip_pixels (rotate_pixels img))) = 0) :
    ∀ fuel, gwr_loop fuel img = none ∧
      gwr_loop fuel (flip_pixels (rotate_pixels img)) = none := by
  intro fuel
  induction fuel with
  | zero => exact ⟨rfl, rfl⟩
  | succ fuel ih =>
    constructor
    · rw [gwr_loop_succ, if_neg (by simp [h1]), if_neg (by simp [h2])]
      exact ih.2
    · rw [gwr_loop_succ, if_neg (by simp [h3])]
      rw [gwr_cycle img h]
      rw [if_neg (by simp [h0])]
      exact ih.1

/-- C2 counterexample: a square image whose only motif occurrence lies in the
180 degree rotation, an orientation the scanner never tries: every orientation
in the scanner's cycle has zero matches and the search never reaches a match
(the fueled loop returns `none`, modelling that the Rust loop never
terminates). -/
theorem c2_counterexample :
    find_number_sea_monsters (rotate_pixels (rotate_pixels c2_image20)) = 1 ∧
    find_number_sea_monsters c2_image20 = 0 ∧
    find_number_sea_monsters (rotate_pixels c2_image20) = 0 ∧
    find_number_sea_monsters (flip_pixels (rotate_pixels c2_image20)) = 0 ∧
    find_number_sea_monsters (rotate_pixels (flip_pixels (rotate_pixels c2_image20))) = 0 ∧
    get_water_roughness c2_image20 = none ∧
    gwr_loop 10 c2_image20 = none := by
  decide

/-- C2 amended: the scanner tries orientations in the fixed sequence identity,
rotate, flip-after-rotate, rotate again, ...; flip-after-rotate applied twice
is the identity on square images, so only the four orientations identity,
rotate90, transpose and mirror are ever examined, with period 2 in the loop
state.  The scanner stops at the first of these four orientations whose match
count is nonzero and computes the roughness there; if all four counts are
zero the search never reaches a match (`none`, the Rust loop does not
terminate) — even when the motif occurs in one of the four untried
orientations. -/
theorem c2_orientation_search (img : List (List Bool)) (h : SquareImage img) :
    flip_pixels (rotate_pixels (flip_pixels (rotate_pixels img))) = img ∧
    get_water_roughness img
      = (if find_number_sea_monsters img ≠ 0
         then some (count_on img - find_number_sea_monsters img * 15)
         else if find_number_sea_monsters (rotate_pixels img) ≠ 0
         then some (count_on (rotate_pixels img)
                    - find_number_sea_monsters (rotate_pixels img) * 15)
         else if find_number_sea_monsters (flip_pixels (rotate_pixels img)) ≠ 0
         then some (count_on (flip_pixels (rotate_pixels img))
                    - find_number_sea_monsters (flip_pixels (rotate_pixels img)) * 15)
         else if find_number_sea_monsters (rotate_pixels (flip_pixels (rotate_pixels img))) ≠ 0
         then some (count_on (rotate_pixels (flip_pixels (rotate_pixels img)))
                    - find_number_sea_monsters (rotate_pixels (flip_pixels (rotate_pixels img))) * 15)
         else none) := by
  refine ⟨gwr_cycle img h, ?_⟩
  rw [get_water_roughness_eq]
  by_cases h0 : find_number_sea_monsters img ≠ 0
  · rw [if_pos h0, if_pos h0]
    rfl
  · rw [if_neg h0, if_neg h0]
    by_cases h1 : find_number_sea_monsters (rotate_pixels img) ≠ 0
    · rw [gwr_loop_succ, if_pos h1, if_pos h1]
      rfl
    · rw [gwr_loop_succ, if_neg h1, if_neg h1]
      by_cases h2 : find_number_sea_monsters (flip_pixels (rotate_pixels img)) ≠ 0
      · rw [if_pos h2, if_pos h2]
        rfl
      · rw [if_neg h2, if_neg h2]
        by_cases h3 : find_number_sea_monsters (rotate_pixels (flip_pixels (rotate_pixels img))) ≠ 0
        · rw [gwr_loop_succ, if_pos h3, if_pos h3]
          rfl
        · rw [gwr_loop_succ, if_neg h3, if_neg h3, gwr_cycle img h]
          rw [if_neg h0]
          have e0 : find_number_sea_monsters img = 0 := by omega
          have e1 : find_number_sea_monsters (rotate_pixels img) = 0 := by omega
          have e2 : find_number_sea_monsters (flip_pixels (rotate_pixels img)) = 0 := by omega
          have e3 : find_number_sea_monsters (rotate_pixels (flip_pixels (rotate_pixels img))) = 0 := by
            omega
          rw [(gwr_loop_none img h e0 e1 e2 e3 2).1]
          rfl

/-- Witness for C2's amended claim at a square image holding one monster in
the identity orientation. -/
theorem c2_witness :
    flip_pixels (rotate_pixels (flip_pixels (rotate_pixels monster_image20))) = monster_image20 ∧
    get_water_roughness monster_image20
      = (if find_number_sea_monsters monster_image20 ≠ 0
         then some (count_on monster_image20 - find_number_sea_monsters monster_image20 * 15)
         else if find_number_sea_monsters (rotate_pixels monster_image20) ≠ 0
         then some (count_on (rotate_pixels monster_image20)
                    - find_number_sea_monsters (rotate_pixels monster_image20) * 15)
         else if find_number_sea_monsters (flip_pixels (rotate_pixels monster_image20)) ≠ 0
         then some (count_on (flip_pixels (rotate_pixels monster_image20))
                    - find_number_sea_monsters (flip_pixels (rotate_pixels monster_image20)) * 15)
         else if find_number_sea_monsters
                   (rotate_pixels (flip_pixels (rotate_pixels monster_image20))) ≠ 0
         then some (count_on (rotate_pixels (flip_pixels (rotate_pixels monster_image20)))
                    - find_number_sea_monsters
                        (rotate_pixels (flip_pixels (rotate_pixels monster_image20))) * 15)
         else none) :=
  c2_orientation_search monster_image20 (by decide)

/-- C3 counterexample: on the all-off square image no orientation yields a
match, yet the code produces no explicit `MotifNotFound`-style failure value:
its only behaviour is to keep rotating and flipping forever (the fueled model
yields `none` — absence of a result — for the roughness computation and for
the search loop at any fuel). -/
theorem c3_counterexample :
    find_number_sea_monsters all_false20 = 0 ∧
    find_number_sea_monsters (rotate_pixels all_false20) = 0 ∧
    find_number_sea_monsters (rotate_pixels (rotate_pixels all_false20)) = 0 ∧
    find_number_sea_monsters
      (rotate_pixels (rotate_pixels (rotate_pixels all_false20))) = 0 ∧
    find_number_sea_monsters (flip_pixels all_false20) = 0 ∧
    find_number_sea_monsters (flip_pixels (rotate_pixels all_false20)) = 0 ∧
    find_number_sea_monsters (flip_pixels (rotate_pixels (rotate_pixels all_false20))) = 0 ∧
    find_number_sea_monsters
      (flip_pixels (rotate_pixels (rotate_pixels (rotate_pixels all_false20)))) = 0 ∧
    get_water_roughness all_false20 = none ∧
    gwr_loop 10 all_false20 = none := by
  decide

/-- C3 amended: when no orientation among the four the scanner examines
yields a match, `get_water_roughness` does not report an explicit failure
value — the Rust loop never terminates, modelled by the fueled loop returning
`none` for every fuel, and the roughness computation yielding no value. -/
theorem c3_motif_not_found_loops (img : List (List Bool)) (h : SquareImage img)
    (h0 : find_number_sea_monsters img = 0)
    (h1 : find_number_sea_monsters (rotate_pixels img) = 0)
    (h2 : find_number_sea_monsters (flip_pixels (rotate_pixels img)) = 0)
    (h3 : find_number_sea_monsters (rotate_pixels (flip_pixels (rotate_pixels img))) = 0) :
    (∀ fuel, gwr_loop fuel img = none) ∧ get_water_roughness img = none := by
  have hmain := gwr_loop_none img h h0 h1 h2 h3
  refine ⟨fun fuel => (hmain fuel).1, ?_⟩
  rw [get_water_roughness_eq, if_neg (by simp [h0]), (hmain 4).1]
  rfl

/-- Witness for C3's amended claim at the all-off image. -/
theorem c3_witness :
    gwr_loop 7 all_false20 = none ∧ get_water_roughness all_false20 = none :=
  ⟨(c3_motif_not_found_loops all_false20 (by decide) (by decide) (by decide) (by decide)
      (by decide)).1 7,
   (c3_motif_not_found_loops all_false20 (by decide) (by decide) (by decide) (by decide)
      (by decide)).2⟩

theorem foldl_push_filter {α β : Type} (p : α → Bool) (f : α → β) (l : List α)
    (acc : List β) :
    l.foldl (fun corners x => if p x then corners ++ [f x] else corners) acc
      = acc ++ (l.filter p).map f := by
  induction l generalizing acc with
  | nil => simp
  | cons x l ih =>
    rw [List.foldl_cons, ih]
    cases hp : p x <;> simp [hp]

theorem mem_fold_append (l : List (Nat × List TileRow)) (acc : List TileRow) (e : TileRow) :
    e ∈ l.foldl (fun s qe => s ++ qe.2 ++ qe.2.map TileRow.flip) acc
      ↔ e ∈ acc ∨ ∃ qe ∈ l, e ∈ qe.2 ∨ e ∈ qe.2.map TileRow.flip := by
  induction l generalizing acc with
  | nil => simp
  | cons qe l ih =>
    rw [List.foldl_cons, ih]
    simp only [List.mem_append, List.mem_cons]
    constructor
    · rintro (((h | h) | h) | ⟨qe2, hm, h⟩)
      · exact Or.inl h
      · exact Or.inr ⟨qe, Or.inl rfl, Or.inl h⟩
      · exact Or.inr ⟨qe, Or.inl rfl, Or.inr h⟩
      · exact Or.inr ⟨qe2, Or.inr hm, h⟩
    · rintro (h | ⟨qe2, (rfl | hm), h⟩)
      · exact Or.inl (Or.inl (Or.inl h))
      · rcases h with h | h
        · exact Or.inl (Or.inl (Or.inr h))
        · exact Or.inl (Or.inr h)
      · exact Or.inr ⟨qe2, hm, h⟩

theorem mem_all_other (data : List Tile) (id : Nat) (e : TileRow) :
    e ∈ part_one_all_other (tile_edge_pairs data) id
      ↔ ∃ u ∈ data, u.id ≠ id ∧ (e ∈ u.edges ∨ ∃ e2 ∈ u.edges, e = TileRow.flip e2) := by
  unfold part_one_all_other tile_edge_pairs
  rw [mem_fold_append]
  simp only [List.not_mem_nil, false_or]
  constructor
  · rintro ⟨qe, hqe, hor⟩
    rw [List.mem_filter] at hqe
    obtain ⟨hqe_mem, hqe_ne⟩ := hqe
    rw [List.mem_map] at hqe_mem
    obtain ⟨u, hu, rfl⟩ := hqe_mem
    refine ⟨u, hu, by simpa using hqe_ne, ?_⟩
    rcases hor with h | h
    · exact Or.inl h
    · right
      rw [List.mem_map] at h
      obtain ⟨e2, he2, rfl⟩ := h
      exact ⟨e2, he2, rfl⟩
  · rintro ⟨u, hu, hne, hor⟩
    refine ⟨(u.id, u.edges), ?_, ?_⟩
    · rw [List.mem_filter]
      exact ⟨List.mem_map.mpr ⟨u, hu, rfl⟩, by simpa using hne⟩
    · rcases hor with h | ⟨e2, he2, rfl⟩
      · exact Or.inl h
      · exact Or.inr (List.mem_map.mpr ⟨e2, he2, rfl⟩)

theorem contains_all_other (data : List Tile) (t : Tile) (x : TileRow) :
    ((part_one_all_other (tile_edge_pairs data) t.id).contains x = true)
      ↔ occurs_elsewhere data t x := by
  rw [List.contains_eq_any_beq, List.any_eq_true]
  unfold occurs_elsewhere
  constructor
  · rintro ⟨y, hy, hxy⟩
    have hxy2 : x = y := by simpa using hxy
    subst hxy2
    exact (mem_all_other data t.id x).mp hy
  · intro h
    exact ⟨x, (mem_all_other data t.id x).mpr h, by simp⟩

theorem is_corner_code_spec (data : List Tile) (t : Tile) :
    part_one_is_corner (tile_edge_pairs data) (t.id, t.edges)
      = decide (is_corner_spec data t) := by
  unfold part_one_is_corner is_corner_spec
  have hfilter :
      (t.id, t.edges).2.filter (fun e =>
        ¬ (part_one_all_other (tile_edge_pairs data) (t.id, t.edges).1).contains e ∧
        ¬ (part_one_all_other (tile_edge_pairs data) (t.id, t.edges).1).contains (TileRow.flip e))
      = t.edges.filter (fun e =>
          decide (¬ occurs_elsewhere data t e ∧ ¬ occurs_elsewhere data t (TileRow.flip e))) := by
    apply List.filter_congr
    intro e _
    rw [decide_eq_decide]
    rw [contains_all_other data t e, contains_all_other data t (TileRow.flip e)]
  rw [hfilter, decide_eq_decide]
  omega

/-- C4: `part_one` returns the product of the identifiers of exactly those
tiles having at least 2 edge signatures that occur, neither directly nor
bit-reversed, in the union of all other tiles' edge signatures and their
bit-reversals; the computation mutates no tile (it is a pure function of the
identifiers and pixel grids) and, being computed from the unassembled tile
set directly, is invariant under arbitrary rewrites of every tile's adjacency
map and fixed flag.  Identifiers are assumed pairwise distinct so that
"tiles with another id" and "other tiles" coincide. -/
theorem c4_part_one_corners (data : List Tile) (hids : (data.map Tile.id).Nodup) :
    part_one data = some ((corner_ids_spec data).prod) ∧
    (∀ adjf : Tile → Adj, ∀ fixf : Tile → Bool,
      part_one (data.map (fun t => { t with adjacent := adjf t, fixed := fixf t }))
        = part_one data) := by
  constructor
  · unfold part_one corner_ids_spec
    rw [foldl_push_filter (part_one_is_corner (tile_edge_pairs data)) (fun pe => pe.1)]
    rw [List.nil_append]
    show some _ = _
    congr 1
    rw [List.prod_eq_foldl]
    congr 1
    unfold tile_edge_pairs
    rw [List.filter_map, List.map_map]
    apply congrArg (List.map _)
    apply List.filter_congr
    intro t _
    exact is_corner_code_spec data t
  · intro adjf fixf
    unfold part_one tile_edge_pairs
    rw [List.map_map]
    rfl

/-- Witness for C4 at the canonical sample. -/
theorem c4_witness :
    part_one sample_tiles = some ((corner_ids_spec sample_tiles).prod) :=
  (c4_part_one_corners sample_tiles (by decide)).1

theorem grid_mem_iff (tiles : List Tile) (m : Nat) (T : Nat → Nat → Tile)
    (h : grid_model tiles m T) (u : Tile) :
    u ∈ tiles ↔ ∃ i, i < m ∧ ∃ j, j < m ∧ u = T i j := by
  rw [h.1.mem_iff]
  rw [List.mem_flatten]
  constructor
  · rintro ⟨row, hrow, hu⟩
    rw [List.mem_map] at hrow
    obtain ⟨i, hi, rfl⟩ := hrow
    rw [List.mem_range] at hi
    rw [List.mem_map] at hu
    obtain ⟨j, hj, rfl⟩ := hu
    rw [List.mem_range] at hj
    exact ⟨i, hi, j, hj, rfl⟩
  · rintro ⟨i, hi, j, hj, rfl⟩
    refine ⟨(List.range m).map (T i), List.mem_map.mpr ⟨i, List.mem_range.mpr hi, rfl⟩, ?_⟩
    exact List.mem_map.mpr ⟨j, List.mem_range.mpr hj, rfl⟩

theorem grid_T_mem (tiles : List Tile) (m : Nat) (T : Nat → Nat → Tile)
    (h : grid_model tiles m T) (i j : Nat) (hi : i < m) (hj : j < m) :
    T i j ∈ tiles :=
  (grid_mem_iff tiles m T h (T i j)).mpr ⟨i, hi, j, hj, rfl⟩

theorem grid_find_T (tiles : List Tile) (m : Nat) (T : Nat → Nat → Tile)
    (h : grid_model tiles m T) (i j : Nat) (hi : i < m) (hj : j < m) :
    find_by_id tiles (T i j).id = some (T i j) := by
  unfold find_by_id
  cases hf : tiles.find? (fun u => u.id == (T i j).id) with
  | none =>
    exfalso
    have := List.find?_eq_none.mp hf (T i j) (grid_T_mem tiles m T h i j hi hj)
    simp at this
  | some u =>
    have hmem := List.mem_of_find?_eq_some hf
    have hpred := List.find?_some hf
    have hid : u.id = (T i j).id := by simpa using hpred
    obtain ⟨i2, hi2, j2, hj2, rfl⟩ := (grid_mem_iff tiles m T h u).mp hmem
    obtain ⟨rfl, rfl⟩ := h.2.1 i2 hi2 j2 hj2 i hi j hj hid
    rfl

theorem adj_size_fields (a : Adj) :
    a.size = ([a.get 0, a.get 1, a.get 2, a.get 3].filter Option.isSome).length := rfl

theorem grid_corner_find (tiles : List Tile) (m : Nat) (T : Nat → Nat → Tile)
    (hm : 2 ≤ m) (h : grid_model tiles m T) :
    tiles.find? (fun t =>
        t.adjacent.size == 2 && !(t.adjacent.get 0).isSome && !(t.adjacent.get 3).isSome)
      = some (T 0 0) := by
  have hpred00 : ((T 0 0).adjacent.size == 2
      && !((T 0 0).adjacent.get 0).isSome && !((T 0 0).adjacent.get 3).isSome) = true := by
    obtain ⟨a0, a1, a2, a3⟩ := h.2.2 0 (by omega) 0 (by omega)
    rw [if_pos rfl] at a0
    rw [if_neg (by omega)] at a1
    rw [if_neg (by omega)] at a2
    rw [if_pos rfl] at a3
    rw [adj_size_fields, a0, a1, a2, a3]
    simp
  cases hf : tiles.find? (fun t =>
      t.adjacent.size == 2 && !(t.adjacent.get 0).isSome && !(t.adjacent.get 3).isSome) with
  | none =>
    exfalso
    have := List.find?_eq_none.mp hf (T 0 0) (grid_T_mem tiles m T h 0 0 (by omega) (by omega))
    exact this hpred00
  | some u =>
    have hmem := List.mem_of_find?_eq_some hf
    have hpred := List.find?_some hf
    obtain ⟨i, hi, j, hj, rfl⟩ := (grid_mem_iff tiles m T h u).mp hmem
    obtain ⟨a0, a1, a2, a3⟩ := h.2.2 i hi j hj
    by_cases hi0 : i = 0
    · by_cases hj0 : j = 0
      · subst hi0
        subst hj0
        rfl
      · exfalso
        rw [if_neg hj0] at a3
        rw [a3] at hpred
        simp at hpred
    · exfalso
      rw [if_neg hi0] at a0
      rw [a0] at hpred
      simp at hpred

theorem grid_tiles_length (tiles : List Tile) (m : Nat) (T : Nat → Nat → Tile)
    (h : grid_model tiles m T) : tiles.length = m * m := by
  rw [h.1.length_eq, List.length_flatten]
  rw [List.map_map]
  have hconst : ((List.range m).map (List.length ∘ fun i => (List.range m).map (T i)))
      = (List.range m).map (fun _ => m) := by
    apply List.map_congr_left
    intro i _
    simp [Function.comp]
  rw [hconst]
  rw [List.map_const']
  simp [List.sum_replicate, List.length_range]

theorem grid_follow_right (tiles : List Tile) (m : Nat) (T : Nat → Nat → Tile)
    (h : grid_model tiles m T) (i : Nat) (hi : i < m) :
    ∀ fuel j, j < m → m - j ≤ fuel →
      follow_right tiles fuel (T i j) = some ((List.range' j (m - j)).map (T i)) := by
  intro fuel
  induction fuel with
  | zero =>
    intro j hj hle
    omega
  | succ fuel ih =>
    intro j hj hle
    obtain ⟨a0, a1, a2, a3⟩ := h.2.2 i hi j hj
    by_cases hjm : j = m - 1
    · rw [if_pos hjm] at a1
      have hmj : m - j = 1 := by omega
      simp only [follow_right, a1, hmj]
      rfl
    · rw [if_neg hjm] at a1
      simp only [follow_right, a1]
      rw [grid_find_T tiles m T h i (j + 1) hi (by omega)]
      have hr : List.range' j (m - j) = j :: List.range' (j + 1) (m - (j + 1)) := by
        have h1 : m - j = (m - (j + 1)) + 1 := by omega
        rw [h1, List.range'_succ]
      rw [hr]
      show Option.map (fun row => T i j :: row) (follow_right tiles fuel (T i (j + 1)))
          = some (List.map (T i) (j :: List.range' (j + 1) (m - (j + 1))))
      rw [ih (j + 1) (by omega) (by omega)]
      rfl

theorem grid_follow_down (tiles : List Tile) (m : Nat) (T : Nat → Nat → Tile)
    (h : grid_model tiles m T) :
    ∀ fuel i, i < m → m - i ≤ fuel →
      follow_down tiles fuel (T i 0)
        = some ((List.range' i (m - i)).map (fun i2 => (List.range m).map (T i2))) := by
  intro fuel
  induction fuel with
  | zero =>
    intro i hi hle
    omega
  | succ fuel ih =>
    intro i hi hle
    have hlen : m ≤ tiles.length := by
      rw [grid_tiles_length tiles m T h]
      exact Nat.le_mul_of_pos_left m (by omega)
    have hrow := grid_follow_right tiles m T h i hi tiles.length 0 (by omega) (by omega)
    obtain ⟨a0, a1, a2, a3⟩ := h.2.2 i hi 0 (by omega)
    by_cases him : i = m - 1
    · rw [if_pos him] at a2
      simp only [follow_down, hrow, Option.bind_some, a2]
      have hmi : m - i = 1 := by omega
      rw [hmi]
      have h0 : List.range' 0 (m - 0) = List.range m := by
        rw [Nat.sub_zero, List.range_eq_range']
      rw [h0]
      rfl
    · rw [if_neg him] at a2
      simp only [follow_down, hrow, Option.bind_some, a2]
      rw [grid_find_T tiles m T h (i + 1) 0 (by omega) (by omega)]
      have hr : List.range' i (m - i) = i :: List.range' (i + 1) (m - (i + 1)) := by
        have h1 : m - i = (m - (i + 1)) + 1 := by omega
        rw [h1, List.range'_succ]
      rw [hr]
      have h0 : List.range' 0 (m - 0) = List.range m := by
        rw [Nat.sub_zero, List.range_eq_range']
      rw [h0]
      show Option.map (fun grid => (List.map (T i) (List.range m)) :: grid)
            (follow_down tiles fuel (T (i + 1) 0))
          = some (List.map (fun i2 => List.map (T i2) (List.range m))
                   (i :: List.range' (i + 1) (m - (i + 1))))
      rw [ih (i + 1) (by omega) (by omega)]
      rfl

/-- C6 counterexample: on the consistently assembled one-tile puzzle (N = 1,
a perfect square, empty adjacency map), `arrange_tiles` fails (the corner
search demands exactly 2 recorded neighbours, so the source's `unwrap`
panics) instead of yielding a 1 by 1 grid. -/
theorem c6_counterexample :
    grid_model [c6_single] 1 c6_T1 ∧ arrange_tiles [c6_single] = none := by
  decide

/-- C6 amended: for every tile set with a consistent completed adjacency
graph of m by m tiles with 2 ≤ m (the claim fails for the 1 by 1 case, where
the corner search panics), `arrange_tiles` yields the m by m grid containing
every tile exactly once, starting from the unique tile with no top and no
left neighbour, following right links within a row and the bottom link of
each row's first tile between rows. -/
theorem c6_arrange_grid (tiles : List Tile) (m : Nat) (T : Nat → Nat → Tile)
    (hm : 2 ≤ m) (h : grid_model tiles m T) :
    arrange_tiles tiles
      = some ((List.range m).map (fun i => (List.range m).map (fun j => T i j))) ∧
    ((List.range m).map (fun i => (List.range m).map (fun j => T i j))).length = m ∧
    (∀ row ∈ (List.range m).map (fun i => (List.range m).map (fun j => T i j)),
      row.length = m) ∧
    ((List.range m).map (fun i => (List.range m).map (fun j => T i j))).flatten.Perm tiles := by
  refine ⟨?_, by simp, ?_, h.1.symm⟩
  · unfold arrange_tiles
    rw [grid_corner_find tiles m T hm h]
    have hlen : m ≤ tiles.length := by
      rw [grid_tiles_length tiles m T h]
      exact Nat.le_mul_of_pos_left m (by omega)
    show follow_down tiles tiles.length (T 0 0) = _
    rw [grid_follow_down tiles m T h tiles.length 0 (by omega) (by omega)]
    rw [Nat.sub_zero, List.range_eq_range']
  · intro row hrow
    rw [List.mem_map] at hrow
    obtain ⟨i, _, rfl⟩ := hrow
    simp

/-- Witness for C6's amended claim on the assembled 2 by 2 puzzle. -/
theorem c6_witness :
    arrange_tiles c6_four
      = some ((List.range 2).map (fun i => (List.range 2).map (fun j => c6_T2 i j))) :=
  (c6_arrange_grid c6_four 2 c6_T2 (by omega) (by decide)).1

theorem adj_insert_eq (a : Adj) (k v : Nat) (h : a.get k = some v) : a.insert k v = a := by
  obtain ⟨t0, r0, b0, l0⟩ := a
  match k with
  | 0 => simp only [Adj.get] at h; simp [Adj.insert, h]
  | 1 => simp only [Adj.get] at h; simp [Adj.insert, h]
  | 2 => simp only [Adj.get] at h; simp [Adj.insert, h]
  | 3 => simp only [Adj.get] at h; simp [Adj.insert, h]
  | n + 4 => rfl

theorem perm_get_eraseIdx (l : List Tile) (idx : Nat) (h : idx < l.length) :
    l.Perm (l.get ⟨idx, h⟩ :: l.eraseIdx idx) := by
  induction l generalizing idx with
  | nil => simp at h
  | cons a l ih =>
    cases idx with
    | zero => exact List.Perm.refl _
    | succ idx =>
      have h2 : idx < l.length := by simpa using h
      show (a :: l).Perm (l.get ⟨idx, h2⟩ :: a :: l.eraseIdx idx)
      exact ((ih idx h2).cons a).trans (List.Perm.swap _ _ _)

theorem ids_ne_of_perm_nodup (tiles : List Tile) (hnodup : (tiles.map Tile.id).Nodup)
    (stack done : List Tile) (t : Tile)
    (hst : (stack ++ done ++ [t]).Perm tiles) (em : Tile) (hmem : em ∈ stack) :
    em.id ≠ t.id := by
  have hperm2 := hst.map Tile.id
  have hnodup2 : ((stack ++ done ++ [t]).map Tile.id).Nodup := hperm2.nodup_iff.mpr hnodup
  intro heq
  rw [List.map_append, List.map_append, List.nodup_append] at hnodup2
  obtain ⟨h1, h2, hdisj⟩ := hnodup2
  have hmem1 : em.id ∈ stack.map Tile.id ++ done.map Tile.id :=
    List.mem_append.mpr (Or.inl (List.mem_map.mpr ⟨em, hmem, rfl⟩))
  have hmem2 : em.id ∈ [t].map Tile.id := by simp [heq]
  exact hdisj hmem1 hmem2

theorem process_edge_noop (tiles : List Tile) (h : all_fixed_consistent tiles)
    (stack done : List Tile) (t : Tile) (i : Nat) (hi : i < 4) (ht : t ∈ tiles)
    (hst : (stack ++ done ++ [t]).Perm tiles) :
    ∃ stack2 done2,
      process_edge (stack, done, t) (i, TileRow.flip ((edges_rows t.rows).getD i 0))
        = some (stack2, done2, t) ∧
      (stack2 ++ done2 ++ [t]).Perm tiles ∧ stack2.length ≤ stack.length := by
  obtain ⟨hnodup, hfixed, hcons⟩ := h
  cases hfind : stack.findIdx? (seek_pred (TileRow.flip ((edges_rows t.rows).getD i 0))) with
  | none =>
    refine ⟨stack, done, ?_, hst, Nat.le_refl _⟩
    simp only [process_edge, hfind]
  | some idx =>
    obtain ⟨hidx, hpred, hmin⟩ := List.findIdx?_eq_some_iff_getElem.mp hfind
    have hgetd : stack.getD idx default = stack.get ⟨idx, hidx⟩ := by
      rw [List.getD_eq_getElem?_getD, List.getElem?_eq_getElem hidx]
      rfl
    set em := stack.get ⟨idx, hidx⟩ with hemdef
    have hmem_st : em ∈ stack := List.get_mem _ _ _
    have hmem_tiles : em ∈ tiles := by
      refine hst.mem_iff.mp ?_
      rw [List.mem_append]
      exact Or.inl (List.mem_append.mpr (Or.inl hmem_st))
    have hfix_em : em.fixed = true := hfixed em hmem_tiles
    have hmem_edge : TileRow.flip ((edges_rows t.rows).getD i 0) ∈ edges_rows em.rows := by
      have hp2 : seek_pred (TileRow.flip ((edges_rows t.rows).getD i 0)) em = true := hpred
      unfold seek_pred at hp2
      rw [hfix_em] at hp2
      simp only [Bool.not_true, Bool.and_false, Bool.or_false] at hp2
      simpa using hp2
    have hne : em.id ≠ t.id := ids_ne_of_perm_nodup tiles hnodup stack done t hst em hmem_st
    obtain ⟨hadj_t, hedge_em, hadj_em⟩ :=
      hcons t ht em hmem_tiles i hi hne (by simpa [Tile.edges] using hmem_edge)
    simp only [Tile.edges] at hedge_em
    have horient :
        orient_candidate em i (TileRow.flip ((edges_rows t.rows).getD i 0)) = some em := by
      unfold orient_candidate
      rw [if_pos hfix_em]
    have hins_em : em.adjacent.insert ((i + 2) % 4) t.id = em.adjacent :=
      adj_insert_eq em.adjacent ((i + 2) % 4) t.id hadj_em
    have hins_t : t.adjacent.insert i em.id = t.adjacent :=
      adj_insert_eq t.adjacent i em.id hadj_t
    have heta_em : { em with adjacent := em.adjacent } = em := rfl
    have heta_t : { t with adjacent := t.adjacent } = t := rfl
    have hperm_erase : stack.Perm (em :: stack.eraseIdx idx) := perm_get_eraseIdx stack idx hidx
    have hs1 : (stack.eraseIdx idx ++ [em]).Perm stack :=
      (List.perm_append_singleton em _).trans hperm_erase.symm
    simp only [process_edge, hfind, hgetd, horient, Option.some_bind]
    rw [if_neg (not_not_intro hedge_em), hins_em, hins_t, heta_em, heta_t]
    by_cases hsize : em.adjacent.size > 3
    · refine ⟨stack.eraseIdx idx, done ++ [em], ?_, ?_, ?_⟩
      · rw [if_pos hsize]
      · have h1 : (stack.eraseIdx idx ++ (done ++ [em])).Perm (stack ++ done) := by
          have ha : stack.eraseIdx idx ++ (done ++ [em])
              = (stack.eraseIdx idx ++ done) ++ [em] := by
            rw [List.append_assoc]
          rw [ha]
          refine (List.perm_append_singleton em _).trans ?_
          show ((em :: stack.eraseIdx idx) ++ done).Perm (stack ++ done)
          exact hperm_erase.symm.append_right done
        exact (h1.append_right [t]).trans hst
      · rw [List.length_eraseIdx_of_lt hidx]
        omega
    · refine ⟨stack.eraseIdx idx ++ [em], done, ?_, ?_, ?_⟩
      · rw [if_neg hsize]
      · exact ((hs1.append_right done).append_right [t]).trans hst
      · rw [List.length_append, List.length_eraseIdx_of_lt hidx]
        simp
        omega

theorem foldlM_four {α β : Type} (f : α → β → Option α) (a : α) (x0 x1 x2 x3 : β) :
    [x0, x1, x2, x3].foldlM f a
      = (f a x0).bind (fun a1 => (f a1 x1).bind (fun a2 =>
          (f a2 x2).bind (fun a3 => f a3 x3))) := by
  cases h0 : f a x0 with
  | none => simp [List.foldlM, h0]
  | some a1 =>
    cases h1 : f a1 x1 with
    | none => simp [List.foldlM, h0, h1]
    | some a2 =>
      cases h2 : f a2 x2 with
      | none => simp [List.foldlM, h0, h1, h2]
      | some a3 => simp [List.foldlM, h0, h1, h2]

theorem process_tile_noop (tiles : List Tile) (h : all_fixed_consistent tiles)
    (stack done : List Tile) (t : Tile) (ht : t ∈ tiles)
    (hst : (stack ++ done ++ [t]).Perm tiles) :
    ∃ stack2 done2, process_tile stack done t = some (stack2, done2) ∧
      (stack2 ++ done2).Perm tiles ∧ stack2.length ≤ stack.length := by
  have hfix_t : t.fixed = true := h.2.1 t ht
  have htt : { t with fixed := true } = t := by rw [← hfix_t]
  unfold process_tile
  rw [htt]
  have henum : ((edges_rows t.rows).map TileRow.flip).enum
      = [(0, TileRow.flip ((edges_rows t.rows).getD 0 0)),
         (1, TileRow.flip ((edges_rows t.rows).getD 1 0)),
         (2, TileRow.flip ((edges_rows t.rows).getD 2 0)),
         (3, TileRow.flip ((edges_rows t.rows).getD 3 0))] := rfl
  rw [henum, foldlM_four]
  obtain ⟨s1, d1, he1, hp1, hl1⟩ := process_edge_noop tiles h stack done t 0 (by omega) ht hst
  simp only [he1, Option.some_bind]
  obtain ⟨s2, d2, he2, hp2, hl2⟩ := process_edge_noop tiles h s1 d1 t 1 (by omega) ht hp1
  simp only [he2, Option.some_bind]
  obtain ⟨s3, d3, he3, hp3, hl3⟩ := process_edge_noop tiles h s2 d2 t 2 (by omega) ht hp2
  simp only [he3, Option.some_bind]
  obtain ⟨s4, d4, he4, hp4, hl4⟩ := process_edge_noop tiles h s3 d3 t 3 (by omega) ht hp3
  simp only [he4, Option.map_some']
  refine ⟨s4, d4 ++ [t], rfl, ?_, by omega⟩
  rw [← List.append_assoc]
  exact hp4

theorem match_puzzle_go_succ_eq (fuel : Nat) (stack done : List Tile) :
    match_puzzle_go (fuel + 1) stack done
      = match stack.getLast? with
        | none => some done
        | some t =>
          (process_tile stack.dropLast done t).bind
            (fun q => match_puzzle_go fuel q.1 q.2) := rfl

theorem match_puzzle_go_noop (tiles : List Tile) (h : all_fixed_consistent tiles) :
    ∀ fuel stack done, stack.length ≤ fuel → (stack ++ done).Perm tiles →
      ∃ out, match_puzzle_go fuel stack done = some out ∧ out.Perm tiles := by
  intro fuel
  induction fuel with
  | zero =>
    intro stack done hlen hperm
    have hnil : stack = [] := List.length_eq_zero.mp (by omega)
    subst hnil
    exact ⟨done, rfl, by simpa using hperm⟩
  | succ fuel ih =>
    intro stack done hlen hperm
    cases hlast : stack.getLast? with
    | none =>
      have hnil : stack = [] := List.getLast?_eq_none_iff.mp hlast
      subst hnil
      exact ⟨done, rfl, by simpa using hperm⟩
    | some t =>
      have hne : stack ≠ [] := by
        intro hkil
        subst hkil
        simp at hlast
      have hsplit : stack.dropLast ++ [t] = stack := by
        have hconcat := List.dropLast_concat_getLast hne
        have hgl : stack.getLast hne = t := by
          have := List.getLast?_eq_getLast stack hne
          rw [hlast] at this
          exact (Option.some.injEq _ _).mp this.symm
        rwa [hgl] at hconcat
      have ht_mem : t ∈ tiles := by
        refine hperm.mem_iff.mp ?_
        exact List.mem_append.mpr (Or.inl (List.mem_of_getLast?_eq_some hlast))
      have hperm2 : (stack.dropLast ++ done ++ [t]).Perm tiles := by
        have ha : stack.dropLast ++ done ++ [t] = stack.dropLast ++ (done ++ [t]) := by
          rw [List.append_assoc]
        rw [ha]
        have hb : (stack.dropLast ++ (done ++ [t])).Perm (stack.dropLast ++ ([t] ++ done)) :=
          List.Perm.append_left _ List.perm_append_comm
        refine hb.trans ?_
        have hc : stack.dropLast ++ ([t] ++ done) = (stack.dropLast ++ [t]) ++ done := by
          rw [List.append_assoc]
        rw [hc, hsplit]
        exact hperm
      obtain ⟨s2, d2, hpt, hperm3, hlen2⟩ :=
        process_tile_noop tiles h stack.dropLast done t ht_mem hperm2
      have hlen3 : s2.length ≤ fuel := by
        have hd : stack.dropLast.length = stack.length - 1 := List.length_dropLast stack
        have hpos : 0 < stack.length := by
          cases stack
          · simp at hlast
          · simp
        omega
      obtain ⟨out, hgo, hout⟩ := ih s2 d2 hlen3 hperm3
      refine ⟨out, ?_, hout⟩
      rw [match_puzzle_go_succ_eq, hlast]
      show (process_tile stack.dropLast done t).bind
        (fun q => match_puzzle_go fuel q.1 q.2) = some out
      rw [hpt]
      exact hgo

/-- C7: re-running the assembly on an already-fixed tile set with a complete,
consistent adjacency graph is a no-op on the adjacency graph: `match_puzzle`
succeeds and returns the tiles unchanged up to order (in particular every
tile keeps its adjacency map). -/
theorem c7_match_puzzle_idempotent (tiles : List Tile) (h : all_fixed_consistent tiles) :
    ∃ out, match_puzzle tiles = some out ∧ out.Perm tiles := by
  unfold match_puzzle
  exact match_puzzle_go_noop tiles h tiles.length tiles [] (Nat.le_refl _)
    (by simpa using List.Perm.refl tiles)

/-- Witness for C7 on a one-element fixed tile set. -/
theorem c7_witness :
    ∃ out, match_puzzle c7_single = some out ∧ out.Perm c7_single :=
  c7_match_puzzle_idempotent c7_single (by decide)
